import Mathlib

/-!
# Verification of the Flint asset-pipeline core

A shallow embedding of the core of the Flint repository
(`src-tauri/src/core/...`): the BIN classifier and concatenator
(`core/bin/concat.rs`), the defensive BIN reader (`core/bin/ltk_bridge.rs`),
the hash store (`core/hash/hashtable.rs`), the WAD skin extractor
(`core/wad/extractor.rs`) and the Refather / repathing engine
(`core/repath/refather.rs`).

Rust strings are modelled as lists of byte values (`Str := List Nat`); all
paths handled by the code are ASCII, where Rust's `to_lowercase`,
`starts_with`, byte slicing `&s[i..]` and `replace` coincide with the
byte-level operations defined below.  Filesystem state is modelled
explicitly as association lists from paths to contents; existence checks
are case-insensitive, as on the Windows filesystems the code targets
(`refather.rs` comments this explicitly and adds a case-insensitive
parent-scan fallback).
-/

namespace Flint

/-- Rust `String`, as its list of bytes (ASCII throughout this code base). -/
abbrev Str := List Nat

/-- Byte list of a Lean string literal (ASCII: `Char.toNat` is the byte). -/
def S (s : String) : Str := s.data.map Char.toNat

/-- ASCII lowercasing of one byte, as Rust `to_lowercase` acts on ASCII. -/
def lowByte (b : Nat) : Nat := if 65 ≤ b ∧ b ≤ 90 then b + 32 else b

/-- Rust `s.to_lowercase()` on ASCII strings. -/
def lowerStr (s : Str) : Str := s.map lowByte

/-- Rust `s.replace('\\', "/")`: byte 92 becomes byte 47. -/
def normSlash (s : Str) : Str := s.map (fun b => if b = 92 then 47 else b)

/-- Rust `s.split(sep)` for a one-byte separator (empty pieces kept). -/
def splitByte (d : Nat) (s : Str) : List Str :=
  s.foldr
    (fun b acc =>
      match acc with
      | [] => [[b]]
      | cur :: rest => if b = d then [] :: (cur :: rest) else (b :: cur) :: rest)
    [[]]

/-- Rust `path.split('/')`. -/
def splitSlash (s : Str) : List Str := splitByte 47 s

/-- Rust `s.contains(pat)`: substring containment. -/
def containsSub (pat s : Str) : Bool :=
  (List.range (s.length + 1)).any (fun i => pat.isPrefixOf (s.drop i))

/-- Rust `BinCategory` from `core/bin/concat.rs`. -/
inductive BinCategory where
  | ChampionRoot
  | Animation
  | LinkedData
  | Ignore
deriving DecidableEq, Repr

/-- Rust `classify_bin` from `core/bin/concat.rs` (lines 55-92), transcribed:
normalize backslashes, lowercase, champion-root pattern
`data/characters/<champ>/<champ>.bin` (outside `/animations/`), the literal
filename `root.bin`, then the animations rule, else `LinkedData`. -/
def classify_bin (path : Str) : BinCategory :=
  let normalized := normSlash path
  let lower := lowerStr normalized
  let filename := (splitSlash lower).getLastD []
  let parts := splitSlash normalized
  if ((S "data/characters/").isPrefixOf lower
      && !(containsSub (S "/animations/") lower))
      && (parts.length == 4
      && (S ".bin").isSuffixOf (lowerStr (parts.getD 3 []))
      && lowerStr (parts.getD 3 []) == lowerStr (parts.getD 2 []) ++ S ".bin") then
    BinCategory.ChampionRoot
  else if filename == S "root.bin" then
    BinCategory.ChampionRoot
  else if (S "data/characters/").isPrefixOf lower
      && containsSub (S "/animations/") lower then
    BinCategory.Animation
  else
    BinCategory.LinkedData

/-! ## Hash store (`core/hash/hashtable.rs`) -/

/-- One lowercase hex digit. -/
def hexDigit (n : Nat) : Nat := if n < 10 then 48 + n else 87 + n

/-- Rust `format!("{:016x}", h)`: lowercase, zero-padded 16-digit hex. -/
def hex16 (h : Nat) : Str :=
  (List.range 16).map (fun i => hexDigit (h / 16 ^ (15 - i) % 16))

/-- The `mappings` field of `Hashtable`: a `HashMap<u64, String>`, modelled
as an association list where `insert` replaces in place. -/
abbrev HashMappings := List (Nat × Str)

/-- Rust `HashMap::get` on the association-list model. -/
def assocGet {α β : Type} [DecidableEq α] (m : List (α × β)) (k : α) : Option β :=
  (m.find? (fun e => e.1 = k)).map (·.2)

/-- Rust `HashMap::insert`: replace the value at an existing key, else append. -/
def assocInsert {α β : Type} [DecidableEq α] (m : List (α × β)) (k : α) (v : β) :
    List (α × β) :=
  match m with
  | [] => [(k, v)]
  | (k', v') :: rest =>
    if k' = k then (k, v) :: rest else (k', v') :: assocInsert rest k v

/-- Rust `Hashtable::resolve` (hashtable.rs lines 165-170): the stored name if
present, else the zero-padded lowercase 16-hex rendering of the digest. -/
def Hashtable.resolve (mappings : HashMappings) (hash : Nat) : Str :=
  match assocGet mappings hash with
  | some s => s
  | none => hex16 hash

/-- Is `b` an ASCII hex digit (`char::is_ascii_hexdigit`)? -/
def isHexDigitByte (b : Nat) : Bool :=
  (48 ≤ b && b ≤ 57) || (97 ≤ b && b ≤ 102) || (65 ≤ b && b ≤ 70)

/-- Value of one ASCII hex digit. -/
def hexVal (b : Nat) : Nat :=
  if 48 ≤ b && b ≤ 57 then b - 48
  else if 97 ≤ b && b ≤ 102 then b - 87
  else b - 55

/-- Rust `u64::from_str_radix(s, 16)`: `none` on an empty string, a non-hex
digit, or 64-bit overflow. -/
def parseHexU64 (s : Str) : Option Nat :=
  if s.isEmpty then none
  else if s.all isHexDigitByte then
    let v := s.foldl (fun acc b => acc * 16 + hexVal b) 0
    if v < 2 ^ 64 then some v else none
  else none

/-- Rust `str::parse::<u64>` (decimal): `none` on empty, non-digit, or overflow. -/
def parseDecU64 (s : Str) : Option Nat :=
  if s.isEmpty then none
  else if s.all (fun b => 48 ≤ b && b ≤ 57) then
    let v := s.foldl (fun acc b => acc * 10 + (b - 48)) 0
    if v < 2 ^ 64 then some v else none
  else none

/-- Rust `str::trim` (ASCII whitespace: space, tab, newline, CR). -/
def trimStr (s : Str) : Str :=
  let ws := fun b => b = 32 || b = 9 || b = 10 || b = 13
  (s.dropWhile ws).reverse.dropWhile ws |>.reverse

/-- Rust `line.splitn(2, ' ')` as the pieces list (1 or 2 pieces). -/
def splitN2Space (s : Str) : List Str :=
  match s.findIdx? (fun b => b == 32) with
  | none => [s]
  | some i => [s.take i, s.drop (i + 1)]

/-- Hash-line parse error, `Error::parse_with_path` carrying the line. -/
structure HashParseError where
  line : Nat
deriving DecidableEq, Repr

/-- Process one (trimmed, 1-based numbered) line of a hash file, as in
`parse_hash_content` (hashtable.rs lines 110-153). -/
def parseHashLine (lineNum : Nat) (line : Str) (mappings : HashMappings) :
    Except HashParseError HashMappings :=
  let line := trimStr line
  if line.isEmpty || line.headD 0 == 35 then Except.ok mappings
  else
    match splitN2Space line with
    | [hashStr, pathStr] =>
      let parsed :=
        if (S "0x").isPrefixOf hashStr || (S "0X").isPrefixOf hashStr then
          parseHexU64 (hashStr.drop 2)
        else if hashStr.all isHexDigitByte then
          parseHexU64 hashStr
        else
          parseDecU64 hashStr
      match parsed with
      | some h => Except.ok (assocInsert mappings h pathStr)
      | none => Except.error ⟨lineNum⟩
    | _ => Except.ok mappings

/-- Rust `content.lines()`: split on newline, dropping a trailing empty
piece produced by a final newline (and stripping a CR before each split). -/
def linesOf (content : Str) : List Str :=
  let raw := splitByte 10 content
  let raw := if raw.getLastD [] == [] && raw.length > 1 then raw.dropLast else raw
  raw.map (fun l => if l.getLastD 0 == 13 then l.dropLast else l)

/-- Rust `parse_hash_content` over a whole file: fold `parseHashLine` over the
numbered lines, propagating the first parse error. -/
def parse_hash_content (content : Str) : Except HashParseError HashMappings :=
  let numbered := (linesOf content).enum
  numbered.foldlM (fun m (p : Nat × Str) => parseHashLine (p.1 + 1) p.2 m) []

/-! ## Property trees (the `ltk_meta` data model used by Flint)

`PropertyValueEnum` is recursive through lists; it is modelled as a mutual
inductive so that the tree walks of `refather.rs` are structural.  Only the
constructors the walker inspects are distinguished; every other (leaf)
kind is collapsed into `other`, which both `collect_paths_from_value` and
`repath_value` treat via their catch-all `_ => {}` arm. -/

mutual
inductive PropValue where
  | str (s : Str)
  | container (items : PropList)
  | unordered (items : PropList)
  | strct (props : PropProps)
  | embedded (props : PropProps)
  | optionalNone
  | optionalSome (v : PropValue)
  | mapv (entries : PropEntries)
  | other
inductive PropList where
  | nil
  | cons (head : PropValue) (tail : PropList)
inductive PropProps where
  | nil
  | cons (name : Nat) (val : PropValue) (tail : PropProps)
inductive PropEntries where
  | nil
  | cons (key : PropValue) (val : PropValue) (tail : PropEntries)
end

/-- Rust `BinTreeObject`: its property map, name digest → property value. -/
structure BinObject where
  props : PropProps

/-- Rust `BinTree`: dependency list plus path-digest-keyed object map
(an ordered map in `ltk_meta`, modelled as an association list). -/
structure BinTree where
  dependencies : List Str
  objects : List (Nat × BinObject)

/-! ## Defensive BIN reader (`core/bin/ltk_bridge.rs`) -/

/-- Rust `MAX_BIN_SIZE`: 50 MiB. -/
def MAX_BIN_SIZE : Nat := 50 * 1024 * 1024

/-- The outcome of running the underlying `ltk_meta` parser
(`BinTree::from_reader`) inside `catch_unwind`: a parsed tree, a parse
error, or a panic whose payload is a `&str`, a `String`, or other. -/
inductive ParseOutcome where
  | ok (tree : BinTree)
  | err (msg : Str)
  | panics (payload : Option Str)

/-- The error kinds of `read_bin`; in the source each is a distinct
`BinError(format!(...))` site, distinguished here as constructors. -/
inductive BinReadError where
  | tooLarge (size : Nat)
  | invalidMagic (magic : Str)
  | tooSmall (size : Nat)
  | parseFailed (msg : Str)
  | parserCrash (reason : Str)

/-- The panic-payload downcast of `read_bin` (ltk_bridge.rs lines 108-114):
a `&str` or `String` payload is the reason, anything else reads
`"unknown panic"`. -/
def panicReason (payload : Option Str) : Str :=
  match payload with
  | some s => s
  | none => S "unknown panic"

/-- Rust `read_bin` (ltk_bridge.rs lines 40-126), parameterised by the
underlying parser: reject inputs over 50 MiB, then inputs of at least 4
bytes whose magic is neither `PROP` nor `PTCH`, then inputs under 4 bytes;
run the parser under `catch_unwind` and convert a panic into an error
carrying the downcast reason. -/
def read_bin (parser : Str → ParseOutcome) (data : Str) :
    Except BinReadError BinTree :=
  if data.length > MAX_BIN_SIZE then
    Except.error (BinReadError.tooLarge data.length)
  else if data.length ≥ 4 then
    let magic := data.take 4
    if magic ≠ S "PROP" ∧ magic ≠ S "PTCH" then
      Except.error (BinReadError.invalidMagic magic)
    else
      match parser data with
      | ParseOutcome.ok tree => Except.ok tree
      | ParseOutcome.err msg => Except.error (BinReadError.parseFailed msg)
      | ParseOutcome.panics p => Except.error (BinReadError.parserCrash (panicReason p))
  else
    Except.error (BinReadError.tooSmall data.length)

/-! ## Refather pure helpers (`core/repath/refather.rs`) -/

/-- Rust `RepathConfig` (refather.rs lines 22-28). -/
structure RepathConfig where
  creator_name : Str
  project_name : Str
  champion : Str
  target_skin_id : Nat
  cleanup_unused : Bool

/-- Rust `s.replace(' ', "-")`. -/
def dashSpaces (s : Str) : Str := s.map (fun b => if b = 32 then 45 else b)

/-- Rust `RepathConfig::prefix` (refather.rs lines 31-35):
`<creator with spaces dashed>/<project with spaces dashed>`. -/
def RepathConfig.prefixOf (c : RepathConfig) : Str :=
  dashSpaces c.creator_name ++ S "/" ++ dashSpaces c.project_name

/-- Rust `is_asset_path` (refather.rs lines 299-302). -/
def is_asset_path (s : Str) : Bool :=
  (S "assets/").isPrefixOf (lowerStr s) || (S "data/").isPrefixOf (lowerStr s)

/-- Rust `normalize_path` (refather.rs lines 304-306): lowercase, then
backslashes to slashes. -/
def normalize_path (s : Str) : Str := normSlash (lowerStr s)

/-- Rust `apply_prefix_to_path` (refather.rs lines 308-317).  `&path[6..]` and
`&path[4..]` are byte slices of the original (un-lowercased) path. -/
def apply_prefix_to_path (path : Str) (pre : Str) : Str :=
  let lower := lowerStr path
  if (S "assets/").isPrefixOf lower then
    S "ASSETS/" ++ pre ++ path.drop 6
  else if (S "data/").isPrefixOf lower then
    S "ASSETS/" ++ pre ++ path.drop 4
  else
    S "ASSETS/" ++ pre ++ S "/" ++ path

/- `collect_paths_from_value` (refather.rs lines 257-297): gather every
normalized string value recognised by `is_asset_path`, walking containers,
unordered containers, structs, embedded structs, present optionals, and
both keys and values of maps. -/
mutual
def collectPathsValue : PropValue → List Str
  | .str s => if is_asset_path s then [normalize_path s] else []
  | .container items => collectPathsList items
  | .unordered items => collectPathsList items
  | .strct props => collectPathsProps props
  | .embedded props => collectPathsProps props
  | .optionalNone => []
  | .optionalSome v => collectPathsValue v
  | .mapv entries => collectPathsEntries entries
  | .other => []
def collectPathsList : PropList → List Str
  | .nil => []
  | .cons h t => collectPathsValue h ++ collectPathsList t
def collectPathsProps : PropProps → List Str
  | .nil => []
  | .cons _ v t => collectPathsValue v ++ collectPathsProps t
def collectPathsEntries : PropEntries → List Str
  | .nil => []
  | .cons k v t => collectPathsValue k ++ collectPathsValue v ++ collectPathsEntries t
end

/- `repath_value` (refather.rs lines 345-394): rewrite every string value
that is an asset path whose normalized form is in `existing`, returning
the new value and the number of substitutions.  Map keys are immutable
(`PropertyValueUnsafeEq`); only map values are walked. -/
mutual
def repathValue (existing : List Str) (pre : Str) : PropValue → PropValue × Nat
  | .str s =>
    if is_asset_path s && existing.contains (normalize_path s) then
      (.str (apply_prefix_to_path s pre), 1)
    else
      (.str s, 0)
  | .container items =>
    let r := repathList existing pre items
    (.container r.1, r.2)
  | .unordered items =>
    let r := repathList existing pre items
    (.unordered r.1, r.2)
  | .strct props =>
    let r := repathProps existing pre props
    (.strct r.1, r.2)
  | .embedded props =>
    let r := repathProps existing pre props
    (.embedded r.1, r.2)
  | .optionalNone => (.optionalNone, 0)
  | .optionalSome v =>
    let r := repathValue existing pre v
    (.optionalSome r.1, r.2)
  | .mapv entries =>
    let r := repathEntries existing pre entries
    (.mapv r.1, r.2)
  | .other => (.other, 0)
def repathList (existing : List Str) (pre : Str) : PropList → PropList × Nat
  | .nil => (.nil, 0)
  | .cons h t =>
    let rh := repathValue existing pre h
    let rt := repathList existing pre t
    (.cons rh.1 rt.1, rh.2 + rt.2)
def repathProps (existing : List Str) (pre : Str) : PropProps → PropProps × Nat
  | .nil => (.nil, 0)
  | .cons n v t =>
    let rv := repathValue existing pre v
    let rt := repathProps existing pre t
    (.cons n rv.1 rt.1, rv.2 + rt.2)
def repathEntries (existing : List Str) (pre : Str) : PropEntries → PropEntries × Nat
  | .nil => (.nil, 0)
  | .cons k v t =>
    let rv := repathValue existing pre v
    let rt := repathEntries existing pre t
    (.cons k rv.1 rt.1, rv.2 + rt.2)
end

/-- Rust `scan_bin_for_paths` over an already-parsed tree (refather.rs lines
240-254): collect from every property of every object. -/
def scanTreeForPaths (t : BinTree) : List Str :=
  t.objects.flatMap (fun o => collectPathsProps o.2.props)

/-- The per-tree rewrite of `repath_bin_file` (refather.rs lines 320-342):
rewrite every property of every object, returning the new tree and the
substitution count.  (The file is written back only when the count is
positive; when it is zero the tree is unchanged, so the on-disk content is
the returned tree either way.) -/
def repathTree (existing : List Str) (pre : Str) (t : BinTree) : BinTree × Nat :=
  let rewritten := t.objects.map (fun o =>
    let r := repathProps existing pre o.2.props
    ((o.1, BinObject.mk r.1), r.2))
  ({ dependencies := t.dependencies, objects := rewritten.map (·.1) },
   (rewritten.map (·.2)).sum)

/-! ## Path helpers shared by the extractor (Rust `std::path`) -/

/-- Rust `Path::file_name` (for the relative, non-`/`-terminated paths used
here): the part after the last `/`. -/
def fileNameOf (p : Str) : Str := (splitSlash p).getLastD []

/-- Rust `Path::parent` (same conventions): everything before the last `/`,
or the empty path when there is no `/`. -/
def parentOf (p : Str) : Str :=
  let parts := splitSlash p
  if parts.length ≤ 1 then [] else
    (S "/").intercalate parts.dropLast

/-- Rust `Path::join` for a relative right-hand side. -/
def joinPath (a b : Str) : Str := if a.isEmpty then b else a ++ S "/" ++ b

/-- Rust `Path::extension`: the part of the file name after its last `.`, absent
when the file name has no `.` or only a leading one. -/
def extensionOf (p : Str) : Option Str :=
  let name := fileNameOf p
  match splitByte 46 name with
  | [] => none
  | [_] => none
  | first :: rest =>
    if first.isEmpty && rest.length = 1 then none
    else some ((first :: rest).getLastD [])

/-! ## WAD skin extractor (`core/wad/extractor.rs`) -/

/-- Result of `LeagueFileKind::identify_from_bytes(data)` followed by
`file_kind.extension()` — an external `league_toolkit` function, kept as a
parameter of the extractor model. -/
inductive SniffKind where
  | unknown
  | knownExt (ext : Str)
  | knownNoExt

/-- Rust `resolve_chunk_path` (extractor.rs lines 406-448): keep an existing
extension; otherwise sniff the bytes and append `.ltk.<ext>`, or `.ltk`
when the kind is unknown or has no canonical extension. -/
def resolve_chunk_path (sniff : Str → SniffKind) (path : Str) (data : Str) : Str :=
  if (extensionOf path).isSome then path
  else
    match sniff data with
    | SniffKind.unknown => joinPath (parentOf path) (fileNameOf path ++ S ".ltk")
    | SniffKind.knownExt e => joinPath (parentOf path) (fileNameOf path ++ S ".ltk." ++ e)
    | SniffKind.knownNoExt => joinPath (parentOf path) (fileNameOf path ++ S ".ltk")

/-- A WAD chunk as the extractor sees it: its 64-bit path digest and the
decompressed bytes (`none` models a decompression failure, which
`extract_skin_assets` logs and skips). -/
structure WadChunk where
  hash : Nat
  data : Option Str

/-- The model of `ExtractionResult` plus the set of files written. -/
structure ExtractOut where
  extracted_count : Nat
  path_mappings : List (Str × Str)
  files : List Str

/-- One iteration of the chunk loop of `extract_skin_assets`
(extractor.rs lines 298-370): filter on the lowercased resolved path,
skip decompression failures, apply the long-name (over 200 characters)
hash fallback recording a `path_mappings` entry, and write the chunk. -/
def extractChunkStep (sniff : Str → SniffKind) (ht : List (Nat × Str))
    (wad_output_dir : Str) (acc : ExtractOut) (c : WadChunk) : ExtractOut :=
  if !((S "assets/").isPrefixOf (lowerStr (Hashtable.resolve ht c.hash))
      || (S "data/").isPrefixOf (lowerStr (Hashtable.resolve ht c.hash))) then
    acc
  else
    match c.data with
    | none => acc
    | some d =>
      if (resolve_chunk_path sniff (Hashtable.resolve ht c.hash) d).length > 200 then
        { extracted_count := acc.extracted_count + 1,
          path_mappings := assocInsert acc.path_mappings
            (normSlash (lowerStr (resolve_chunk_path sniff (Hashtable.resolve ht c.hash) d)))
            (normSlash (lowerStr
              (joinPath (parentOf (resolve_chunk_path sniff (Hashtable.resolve ht c.hash) d))
                (hex16 c.hash ++ S "."
                  ++ ((extensionOf (resolve_chunk_path sniff (Hashtable.resolve ht c.hash) d)).getD
                    (S "bin")))))),
          files := acc.files
            ++ [joinPath wad_output_dir
                (joinPath (parentOf (resolve_chunk_path sniff (Hashtable.resolve ht c.hash) d))
                  (hex16 c.hash ++ S "."
                    ++ ((extensionOf (resolve_chunk_path sniff (Hashtable.resolve ht c.hash) d)).getD
                      (S "bin"))))] }
      else
        { extracted_count := acc.extracted_count + 1,
          path_mappings := acc.path_mappings,
          files := acc.files
            ++ [joinPath wad_output_dir (resolve_chunk_path sniff (Hashtable.resolve ht c.hash) d)] }

/-- Rust `extract_skin_assets` (extractor.rs lines 266-388): note the skin id
parameter is received as `_skin_id` and never used by the body. -/
def extract_skin_assets (sniff : Str → SniffKind) (chunks : List WadChunk)
    (output_dir : Str) (champion : Str) (skin_id : Nat) (ht : List (Nat × Str)) :
    ExtractOut :=
  let champion_lower := lowerStr champion
  let wad_output_dir := joinPath output_dir (champion_lower ++ S ".wad.client")
  let _ := skin_id
  chunks.foldl (extractChunkStep sniff ht wad_output_dir)
    { extracted_count := 0, path_mappings := [], files := [] }

/-! ## Filesystem model

Association lists from relative paths to contents.  Lookups are
case-insensitive, as on the Windows filesystems the code targets (the
repather adds an explicit case-insensitive parent-scan fallback and
comments "Windows filesystem is case-insensitive"). -/

/-- Case-insensitive path equality. -/
def ciEq (a b : Str) : Bool := lowerStr a == lowerStr b

/-- The BIN files of a project tree: relative path → parsed tree. -/
abbrev BinFiles := List (Str × BinTree)

/-- Rust `fs::read` + `read_bin` of a BIN file at `p` (case-insensitive). -/
def lookupBin (fs : BinFiles) (p : Str) : Option BinTree :=
  (fs.find? (fun e => ciEq e.1 p)).map (·.2)

/-- Rust `path.exists()` over the BIN files. -/
def binExists (fs : BinFiles) (p : Str) : Bool := (lookupBin fs p).isSome

/-- Rust `fs::write` of a BIN file: overwrite the existing file, else create. -/
def writeBin (fs : BinFiles) (p : Str) (t : BinTree) : BinFiles :=
  match fs with
  | [] => [(p, t)]
  | (k, v) :: rest =>
    if ciEq k p then (p, t) :: rest else (k, v) :: writeBin rest p t

/-- Rust `fs::remove_file` of a BIN file. -/
def removeBin (fs : BinFiles) (p : Str) : BinFiles :=
  fs.filter (fun e => !(ciEq e.1 p))

/-! ## Linked-BIN concatenation (`core/bin/concat.rs`) -/

/-- Rust `ConcatResult` (concat.rs lines 39-52). -/
structure ConcatResult where
  concat_path : Str
  source_count : Nat
  entry_count : Nat
  collision_count : Nat
  source_paths : List Str

/-- Error cases of the concat workflow that are reachable in the model:
a missing or unparsable main BIN, and an empty LinkedData set. -/
inductive ConcatError where
  | ioError
  | noLinkedData

/-- The concat output path (concat.rs lines 221-227):
`data/<champion_lower>_<creator dashed>_<project dashed>__Concat.bin`. -/
def concatPathOf (project_name creator_name champion : Str) : Str :=
  S "data/" ++ lowerStr champion ++ S "_" ++ dashSpaces creator_name
    ++ S "_" ++ dashSpaces project_name ++ S "__Concat.bin"

/-- Accumulator of the source-merging loop of `create_concat_bin`. -/
structure ConcatAcc where
  objs : List (Nat × BinObject)
  collisions : Nat
  sourceCount : Nat
  processed : List Str

/-- One iteration of the Type-3 loop of `create_concat_bin` (concat.rs
lines 146-213): resolve the dependency through the path mappings, skip
missing or unparsable files, merge objects last-write-wins counting
collisions, and record the processed path. -/
def concatSourceStep (fs : BinFiles) (mappings : List (Str × Str))
    (acc : ConcatAcc) (binPath : Str) : ConcatAcc :=
  let normalized := normalize_path binPath
  let actual := (assocGet mappings normalized).getD normalized
  match lookupBin fs actual with
  | none => acc
  | some src =>
    let merged := src.objects.foldl
      (fun (a : List (Nat × BinObject) × Nat) ob =>
        ((assocInsert a.1 ob.1 ob.2),
         if (assocGet a.1 ob.1).isSome then a.2 + 1 else a.2))
      (acc.objs, acc.collisions)
    { objs := merged.1, collisions := merged.2,
      sourceCount := acc.sourceCount + 1,
      processed := acc.processed ++ [actual] }

/-- The LinkedData dependencies of a main tree (concat.rs lines 117-127). -/
def type3Paths (mainB : BinTree) : List Str :=
  mainB.dependencies.filter (fun p => classify_bin p == BinCategory.LinkedData)

/-- Rust `create_concat_bin` (concat.rs lines 105-265) over the filesystem
model: filter the dependencies to LinkedData, fail when there are none,
merge every readable source, and write the concat tree (empty dependency
list) at the concat path.  I/O succeeds in the model and the written tree
re-reads as written, so the read-back-verification failure path is
unreachable. -/
def create_concat_bin (mainB : BinTree) (project_name creator_name champion : Str)
    (fs : BinFiles) (mappings : List (Str × Str)) :
    Except ConcatError (BinFiles × ConcatResult) :=
  let type3 := type3Paths mainB
  if type3.isEmpty then Except.error ConcatError.noLinkedData
  else
    let acc := type3.foldl (concatSourceStep fs mappings)
      { objs := [], collisions := 0, sourceCount := 0, processed := [] }
    let concat_path := concatPathOf project_name creator_name champion
    let concatTree : BinTree := { dependencies := [], objects := acc.objs }
    Except.ok (writeBin fs concat_path concatTree,
      { concat_path := concat_path,
        source_count := acc.sourceCount,
        entry_count := acc.objs.length,
        collision_count := acc.collisions,
        source_paths := acc.processed })

/-- Rust `update_main_bin_links` (concat.rs lines 268-302): the new dependency
list is the concat path, then the first ChampionRoot dependency (if any),
then the first Animation dependency (if any). -/
def update_main_bin_links (mainB : BinTree) (concat_path : Str) : BinTree :=
  let type1 := mainB.dependencies.find? (fun p => classify_bin p == BinCategory.ChampionRoot)
  let type2 := mainB.dependencies.find? (fun p => classify_bin p == BinCategory.Animation)
  { mainB with dependencies := [concat_path] ++ type1.toList ++ type2.toList }

/-- Rust `concatenate_linked_bins` (concat.rs lines 305-374): load the main
tree, create and save the concat BIN, re-read the main tree, rewrite its
dependency list and write it back, then delete every processed source
file. -/
def concatenate_linked_bins (fs : BinFiles) (main_bin_path : Str)
    (project_name creator_name champion : Str) (mappings : List (Str × Str)) :
    Except ConcatError (BinFiles × ConcatResult) :=
  match lookupBin fs main_bin_path with
  | none => Except.error ConcatError.ioError
  | some mainB =>
    match create_concat_bin mainB project_name creator_name champion fs mappings with
    | Except.error e => Except.error e
    | Except.ok (fs1, res) =>
      match lookupBin fs1 main_bin_path with
      | none => Except.error ConcatError.ioError
      | some mainB2 =>
        let fs2 := writeBin fs1 main_bin_path (update_main_bin_links mainB2 res.concat_path)
        let fs3 := res.source_paths.foldl removeBin fs2
        Except.ok (fs3, res)

/-! ## The Refather pipeline (`repath_project`, refather.rs lines 49-237)

The project working tree (everything under the selected `file_base`) is a
pair of path-keyed stores: the `.bin` files (parsed) and the other asset
files.  `contentExists` models `content_base.exists()`. -/

/-- The project tree as `repath_project` sees it, rooted at `file_base`. -/
structure ProjectFS where
  contentExists : Bool
  bins : BinFiles
  assets : List Str

/-- Rust `RepathResult` (refather.rs lines 40-46). -/
structure RepathResult where
  bins_processed : Nat
  paths_modified : Nat
  files_relocated : Nat
  files_removed : Nat
  missing_paths : List Str

/-- The one repath error reachable in the model ( refather.rs line 59:
missing content base). -/
inductive RepathError where
  | contentBaseMissing

/-- Decimal rendering of a `u32` (`format!("{}", n)`); fuelled so that it
reduces definitionally. -/
def natToStrAux : Nat → Nat → Str
  | 0, _ => []
  | fuel + 1, n => if n < 10 then [48 + n] else natToStrAux fuel (n / 10) ++ [48 + n % 10]

/-- Rust `format!("{}", n)`. -/
def natToStr (n : Nat) : Str := natToStrAux (n + 1) n

/-- Rust `format!("{:02}", n)`. -/
def pad2 (n : Nat) : Str := if n < 10 then S "0" ++ natToStr n else natToStr n

/-- The two candidate main-skin paths of `find_main_skin_bin`
(refather.rs lines 567-570). -/
def skinPatterns (champion : Str) (skin_id : Nat) : List Str :=
  [S "data/characters/" ++ lowerStr champion ++ S "/skins/skin"
     ++ natToStr skin_id ++ S ".bin",
   S "data/characters/" ++ lowerStr champion ++ S "/skins/skin"
     ++ pad2 skin_id ++ S ".bin"]

/-- Rust `find_main_skin_bin` (refather.rs lines 564-602): try the two direct
candidate paths, then walk every `.bin` file and take the first whose
normalized relative path equals a candidate. -/
def find_main_skin_bin (bins : BinFiles) (champion : Str) (skin_id : Nat) :
    Option Str :=
  let pats := skinPatterns champion skin_id
  match pats.find? (fun p => binExists bins p) with
  | some p => some p
  | none =>
    (bins.find? (fun e => pats.any (fun p => normalize_path e.1 == p))).map (·.1)

/-- Rust `path.exists()` against the whole working tree (BINs and assets). -/
def fileExists (fs : ProjectFS) (p : Str) : Bool :=
  binExists fs.bins p || fs.assets.any (fun f => ciEq f p)

/-- The BIN working set of `repath_project` (lines 91-137): the main skin
BIN and its on-disk dependencies when a main BIN is found, else every
`.bin` file of the tree. -/
def repathBinFiles (fs : ProjectFS) (cfg : RepathConfig)
    (mappings : List (Str × Str)) : List Str :=
  let mainOpt := if cfg.champion.isEmpty then none
    else find_main_skin_bin fs.bins cfg.champion cfg.target_skin_id
  match mainOpt with
  | some mainPath =>
    let deps :=
      match lookupBin fs.bins mainPath with
      | some t => t.dependencies.filterMap (fun dep =>
          let normalized := normalize_path dep
          let actual := (assocGet mappings normalized).getD normalized
          if fileExists fs actual then some actual else none)
      | none => []
    mainPath :: deps
  | none => fs.bins.map (·.1)

/-- The whitelist of `cleanup_irrelevant_bins` (refather.rs lines
466-544): keep the concat BIN, and the target skin's `skins/` and
`animations/` BINs; everything else with a `.bin` extension is deleted. -/
def keepBin (target_skin_id : Nat) (rel : Str) : Bool :=
  let rel_str := normalize_path rel
  let filename := (splitSlash rel_str).getLastD []
  let tname := S "skin" ++ natToStr target_skin_id ++ S ".bin"
  let tnamePad := S "skin" ++ pad2 target_skin_id ++ S ".bin"
  containsSub (S "__concat") filename
  || (containsSub (S "/skins/") rel_str && (filename == tname || filename == tnamePad))
  || (containsSub (S "/animations/") rel_str && (filename == tname || filename == tnamePad))

/-- Rust `repath_project` (refather.rs lines 49-237).  Paths are relative to
the selected `file_base` (WAD folder when present, else the content
base — the selection itself is outside the model).  I/O succeeds, so of
the error returns only the missing-content-base one is reachable.
Steps: select the BIN working set, collect referenced asset paths,
split them into existing and missing, rewrite each BIN, relocate the
existing non-BIN assets under the prefix, optionally delete unreferenced
non-BIN files, and prune non-whitelisted BINs. -/
def repath_project (fs : ProjectFS) (cfg : RepathConfig)
    (mappings : List (Str × Str)) :
    Except RepathError (ProjectFS × RepathResult) :=
  if !fs.contentExists then Except.error RepathError.contentBaseMissing
  else
    let bin_files := repathBinFiles fs cfg mappings
    let all_asset_paths :=
      ((bin_files.filterMap (lookupBin fs.bins)).flatMap scanTreeForPaths).dedup
    let existing := all_asset_paths.filter (fun p => fileExists fs p)
    let missing := all_asset_paths.filter (fun p => !(fileExists fs p))
    let pre := cfg.prefixOf
    let step4 := bin_files.foldl
      (fun (acc : BinFiles × Nat × Nat) p =>
        match lookupBin acc.1 p with
        | none => acc
        | some t =>
          let r := repathTree existing pre t
          (writeBin acc.1 p r.1, acc.2.1 + 1, acc.2.2 + r.2))
      (fs.bins, 0, 0)
    let bins1 := step4.1
    let reloc := existing.foldl
      (fun (acc : List Str × Nat) p =>
        if (S ".bin").isSuffixOf (lowerStr p) then acc
        else
          let dest := apply_prefix_to_path p pre
          if acc.1.any (fun f => ciEq f p) then
            (((acc.1.filter (fun f => !(ciEq f p))).filter
                (fun f => !(ciEq f dest))) ++ [dest], acc.2 + 1)
          else acc)
      (fs.assets, 0)
    let assets1 := reloc.1
    let cleanup :=
      if cfg.cleanup_unused then
        let expected := existing.map (fun p => normalize_path (apply_prefix_to_path p pre))
        let kept := assets1.filter (fun f => expected.contains (normalize_path f))
        (kept, assets1.length - kept.length)
      else (assets1, 0)
    let bins2 := bins1.filter (fun e => keepBin cfg.target_skin_id e.1)
    Except.ok
      ({ contentExists := true, bins := bins2, assets := cleanup.1 },
       { bins_processed := step4.2.1,
         paths_modified := step4.2.2,
         files_relocated := reloc.2,
         files_removed := cleanup.2,
         missing_paths := missing })

/-! ## Projections and concrete fixtures used by the theorems -/

/-- The project state of a repath outcome (dummy state on error). -/
def repathStateOf (e : Except RepathError (ProjectFS × RepathResult)) : ProjectFS :=
  match e with
  | Except.ok (st, _) => st
  | Except.error _ => { contentExists := false, bins := [], assets := [] }

/-- The result record of a repath outcome (zero record on error). -/
def repathResultOf (e : Except RepathError (ProjectFS × RepathResult)) : RepathResult :=
  match e with
  | Except.ok (_, r) => r
  | Except.error _ =>
    { bins_processed := 0, paths_modified := 0, files_relocated := 0,
      files_removed := 0, missing_paths := [] }

/-- The first string property of the first object of a tree, to observe
rewrites. -/
def firstStringOf (t : Option BinTree) : Str :=
  match t with
  | some t =>
    match t.objects with
    | (_, o) :: _ =>
      match o.props with
      | PropProps.cons _ (PropValue.str s) _ => s
      | _ => []
    | [] => []
  | none => []

/-- The fixture path from spec scenario C. -/
def kaynTexPath : Str := S "assets/characters/kayn/skins/skin0/kayn.tex"

/-- A main skin tree referencing `kaynTexPath` through one property. -/
def kaynTree : BinTree :=
  { dependencies := [],
    objects := [(10, ⟨PropProps.cons 20 (PropValue.str kaynTexPath) PropProps.nil⟩)] }

/-- The main-skin BIN path for champion `kayn`, skin 0. -/
def kaynSkinBinPath : Str := S "data/characters/kayn/skins/skin0.bin"

/-- Spec scenario C's configuration: creator `Sir Dexal`, project
`My Mod`, champion `kayn`, target skin 0. -/
def sirDexalCfg : RepathConfig :=
  { creator_name := S "Sir Dexal", project_name := S "My Mod",
    champion := S "kayn", target_skin_id := 0, cleanup_unused := false }

/-- Spec scenario C's project tree: the main skin BIN plus the referenced
texture. -/
def kaynState : ProjectFS :=
  { contentExists := true,
    bins := [(kaynSkinBinPath, kaynTree)],
    assets := [kaynTexPath] }

/-- First Refather run on the scenario-C project. -/
def kaynRun1 := repath_project kaynState sirDexalCfg []

/-- Second Refather run, on the output of the first. -/
def kaynRun2 := repath_project (repathStateOf kaynRun1) sirDexalCfg []

/-- How `read_bin` maps the caught parser outcome to its own result
(ltk_bridge.rs lines 94-125), for stating that guarded inputs reach the
parser. -/
def outcomeResult : ParseOutcome → Except BinReadError BinTree
  | ParseOutcome.ok t => Except.ok t
  | ParseOutcome.err m => Except.error (BinReadError.parseFailed m)
  | ParseOutcome.panics p => Except.error (BinReadError.parserCrash (panicReason p))

/-- A parser stub used to instantiate `read_bin` theorems. -/
def trivParser : Str → ParseOutcome := fun _ => ParseOutcome.err (S "nope")

/-- A 50 MiB + 1 byte input. -/
def bigInput : Str := List.replicate (MAX_BIN_SIZE + 1) 0

/-- A project tree with a single non-matching BIN, for the missing-main
scenario: `find_main_skin_bin` locates nothing here. -/
def fooState : ProjectFS :=
  { contentExists := true,
    bins := [(S "data/foo.bin", { dependencies := [], objects := [] })],
    assets := [] }

/-- Concat fixture: the ChampionRoot dependency. -/
def rootDepPath : Str := S "data/characters/kayn/kayn.bin"

/-- Concat fixture: the Animation dependency. -/
def animDepPath : Str := S "data/characters/kayn/animations/skin2.bin"

/-- Concat fixture: first LinkedData dependency. -/
def l1Path : Str := S "data/l1.bin"

/-- Concat fixture: second LinkedData dependency. -/
def l2Path : Str := S "data/l2.bin"

/-- Concat fixture: main tree with dependencies `[R, A, L1, L2]`. -/
def concatMainTree : BinTree :=
  { dependencies := [rootDepPath, animDepPath, l1Path, l2Path], objects := [] }

/-- Concat fixture: the main skin BIN path. -/
def concatMainPath : Str := S "data/characters/kayn/skins/skin2.bin"

/-- Concat fixture: project BIN files. -/
def concatFS : BinFiles :=
  [(concatMainPath, concatMainTree),
   (rootDepPath, { dependencies := [], objects := [] }),
   (animDepPath, { dependencies := [], objects := [] }),
   (l1Path, { dependencies := [], objects := [(1, ⟨PropProps.nil⟩)] }),
   (l2Path, { dependencies := [], objects := [(2, ⟨PropProps.nil⟩)] })]

/-- The processed (merged) source list of `create_concat_bin`, projected
from its source loop. -/
def processedOf (fs : BinFiles) (mainB : BinTree) (mappings : List (Str × Str)) :
    List Str :=
  ((type3Paths mainB).foldl (concatSourceStep fs mappings)
    { objs := [], collisions := 0, sourceCount := 0, processed := [] }).processed

/-- A sniffer stub used to instantiate extractor theorems. -/
def sniffAny : Str → SniffKind := fun _ => SniffKind.unknown

/-- A resolved relative path of length 150 (under the 200 limit). -/
def longTexName : Str := S "assets/" ++ List.replicate 139 97 ++ S ".tex"

/-- A resolved relative path of length 250 (over the 200 limit). -/
def veryLongTexName : Str := S "assets/" ++ List.replicate 239 97 ++ S ".tex"

/-- A 100-character output directory. -/
def longOutDir : Str := List.replicate 100 111

/-- The hash store for the long-name scenarios: digest 1 resolves to the
150-character name. -/
def longHt : List (Nat × Str) := [(1, longTexName)]

/-- The chunk carrying digest 1 with empty decompressed data. -/
def longChunk : WadChunk := { hash := 1, data := some [] }

/-- The claim's classifier, read literally in its own order: Root for the
4-segment `data/characters/<champ>/<champ>.bin` pattern or a `root.bin`
filename, else Animation for paths under `data/characters/` containing
`/animations/`, else LinkedData (all on the lowercased slash-normalized
path). -/
def claimClassify (path : Str) : BinCategory :=
  let lower := lowerStr (normSlash path)
  let parts := splitSlash lower
  let filename := parts.getLastD []
  let champRoot :=
    match parts with
    | [a, b, c, d] => a == S "data" && b == S "characters" && d == c ++ S ".bin"
    | _ => false
  if champRoot || filename == S "root.bin" then BinCategory.ChampionRoot
  else if (S "data/characters/").isPrefixOf lower
      && containsSub (S "/animations/") lower then BinCategory.Animation
  else BinCategory.LinkedData

/-- The amended claim's classifier: as `claimClassify`, except that the
champion-root pattern additionally requires the path not to contain
`/animations/` (the exclusion the code applies). -/
def claimClassifyAmended (path : Str) : BinCategory :=
  let lower := lowerStr (normSlash path)
  let parts := splitSlash lower
  let filename := parts.getLastD []
  let champRoot :=
    (match parts with
     | [a, b, c, d] => a == S "data" && b == S "characters" && d == c ++ S ".bin"
     | _ => false)
    && !(containsSub (S "/animations/") lower)
  if champRoot || filename == S "root.bin" then BinCategory.ChampionRoot
  else if (S "data/characters/").isPrefixOf lower
      && containsSub (S "/animations/") lower then BinCategory.Animation
  else BinCategory.LinkedData

/-- Inverse of `splitByte d`: `joinByte d` rejoins the pieces. -/
def joinByte (d : Nat) : List Str → Str
  | [] => []
  | [x] => x
  | x :: xs => x ++ d :: joinByte d xs


/-- The concat fixture run: main `[R, A, L1, L2]`, creator `Sir Dexal`,
project `My Mod`, champion `kayn`. -/
def concatRun : Except ConcatError (BinFiles × ConcatResult) :=
  concatenate_linked_bins concatFS concatMainPath (S "My Mod") (S "Sir Dexal") (S "kayn") []

/-- The filesystem of a concat outcome (empty on error). -/
def concatFsOf (e : Except ConcatError (BinFiles × ConcatResult)) : BinFiles :=
  match e with
  | Except.ok (f, _) => f
  | Except.error _ => []

/-- The result record of a concat outcome (empty on error). -/
def concatResOf (e : Except ConcatError (BinFiles × ConcatResult)) : ConcatResult :=
  match e with
  | Except.ok (_, r) => r
  | Except.error _ =>
    { concat_path := [], source_count := 0, entry_count := 0,
      collision_count := 0, source_paths := [] }

/-! ## Helper lemmas -/

/-! ## Concrete evaluations of the embedded definitions -/

example : classify_bin (S "DATA/Characters/Kayn/Kayn.bin") = .ChampionRoot := by decide
example : classify_bin (S "data/characters/kayn/kayn.bin") = .ChampionRoot := by decide
example : classify_bin (S "DATA/Characters/Kayn/Animations/Skin8.bin") = .Animation := by decide
example : classify_bin (S "DATA/Kayn_Skins_Skin0_Skins_Skin1.bin") = .LinkedData := by decide
example : classify_bin (S "foo/root.bin") = .ChampionRoot := by decide
example : classify_bin (S "data/characters/animations/animations.bin") = .Animation := by decide

example : hex16 0xdeadbeef = S "00000000deadbeef" := by decide
example : hex16 0x1a2b3c4d = S "000000001a2b3c4d" := by decide

example : parse_hash_content (S "1a2b3c4d test.bin\n")
    = Except.ok [(0x1a2b3c4d, S "test.bin")] := by rfl

example :
    apply_prefix_to_path (S "assets/characters/ahri/skin.dds") (S "SirDexal/MyMod")
      = S "ASSETS/SirDexal/MyMod/characters/ahri/skin.dds" := by decide

example : extensionOf (S "a/b.tex") = some (S "tex") := by decide
example : extensionOf (S "a/b") = none := by decide
example : extensionOf (S "a/.hidden") = none := by decide
example : extensionOf (S "a/b.ltk.tex") = some (S "tex") := by decide

example : natToStr 0 = S "0" := by decide
example : natToStr 27 = S "27" := by decide
example : pad2 2 = S "02" := by decide

example : (repathResultOf kaynRun1).paths_modified = 1 := by decide
example : (repathStateOf kaynRun1).assets
    = [S "ASSETS/Sir-Dexal/My-Mod/characters/kayn/skins/skin0/kayn.tex"] := by decide
example : firstStringOf (lookupBin (repathStateOf kaynRun1).bins kaynSkinBinPath)
    = S "ASSETS/Sir-Dexal/My-Mod/characters/kayn/skins/skin0/kayn.tex" := by decide
example : (repathResultOf kaynRun2).paths_modified = 1 := by decide
example : firstStringOf (lookupBin (repathStateOf kaynRun2).bins kaynSkinBinPath)
    = S "ASSETS/Sir-Dexal/My-Mod/Sir-Dexal/My-Mod/characters/kayn/skins/skin0/kayn.tex" := by
  decide

theorem lowByte_slash {b : Nat} (h : lowByte b = 47) : b = 47 := by
  unfold lowByte at h
  split at h <;> omega

theorem lowerStr_append (a b : Str) :
    lowerStr (a ++ b) = lowerStr a ++ lowerStr b := by
  simp [lowerStr]

theorem lowerStr_length (a : Str) : (lowerStr a).length = a.length := by
  simp [lowerStr]

/-- If the lowercasing of `s` starts with a literal whose byte at index
`n` is `/`, then `s` itself has a `/` there. -/
theorem drop_before_slash {s t : Str} (lit : Str) (n : Nat)
    (hlen : lit.length = n + 1) (hlast : lit.drop n = [47])
    (h : lowerStr s = lit ++ t) : s.drop n = 47 :: s.drop (n + 1) := by
  have h1 : lowerStr (s.drop n) = 47 :: t := by
    calc (s.drop n).map lowByte
        = (s.map lowByte).drop n := List.map_drop ..
      _ = (lit ++ t).drop n := by rw [show s.map lowByte = lowerStr s from rfl, h]
      _ = lit.drop n ++ t.drop (n - lit.length) := List.drop_append_eq_append_drop
      _ = 47 :: t := by
          rw [hlast]
          have hz : n - lit.length = 0 := by omega
          rw [hz]
          rfl
  cases hd : s.drop n with
  | nil => rw [hd] at h1; simp [lowerStr] at h1
  | cons x rest =>
    rw [hd] at h1
    simp only [lowerStr, List.map_cons, List.cons.injEq] at h1
    have hx : x = 47 := lowByte_slash h1.1
    have hr : rest = s.drop (n + 1) := by
      have ht := List.tail_drop s n
      rw [hd] at ht
      simpa using ht
    rw [hx, hr]

/-- Branch equation of `apply_prefix_to_path`: the `assets/` case. -/
theorem apply_prefix_assets {s : Str} (pre : Str)
    (h : (S "assets/").isPrefixOf (lowerStr s) = true) :
    apply_prefix_to_path s pre = S "ASSETS/" ++ pre ++ s.drop 6 := by
  simp only [apply_prefix_to_path, h]
  rfl

/-- Branch equation of `apply_prefix_to_path`: the `data/` case. -/
theorem apply_prefix_data {s : Str} (pre : Str)
    (h1 : (S "assets/").isPrefixOf (lowerStr s) = false)
    (h2 : (S "data/").isPrefixOf (lowerStr s) = true) :
    apply_prefix_to_path s pre = S "ASSETS/" ++ pre ++ s.drop 4 := by
  simp only [apply_prefix_to_path, h1, h2]
  rfl

/-- Branch equation of `apply_prefix_to_path`: the catch-all case. -/
theorem apply_prefix_neither {s : Str} (pre : Str)
    (h1 : (S "assets/").isPrefixOf (lowerStr s) = false)
    (h2 : (S "data/").isPrefixOf (lowerStr s) = false) :
    apply_prefix_to_path s pre = S "ASSETS/" ++ pre ++ S "/" ++ s := by
  simp only [apply_prefix_to_path, h1, h2]
  rfl

/-- Every output of `apply_prefix_to_path` has the form
`ASSETS/<prefix>/…`. -/
theorem apply_prefix_shape (s pre : Str) :
    ∃ t, apply_prefix_to_path s pre = S "ASSETS/" ++ pre ++ 47 :: t := by
  cases h1 : (S "assets/").isPrefixOf (lowerStr s) with
  | true =>
    obtain ⟨t, ht⟩ := List.isPrefixOf_iff_prefix.mp h1
    have hdrop := drop_before_slash (S "assets/") 6 (by decide) (by decide) ht.symm
    exact ⟨s.drop 7, by rw [apply_prefix_assets pre h1, hdrop]⟩
  | false =>
    cases h2 : (S "data/").isPrefixOf (lowerStr s) with
    | true =>
      obtain ⟨t, ht⟩ := List.isPrefixOf_iff_prefix.mp h2
      have hdrop := drop_before_slash (S "data/") 4 (by decide) (by decide) ht.symm
      exact ⟨s.drop 5, by rw [apply_prefix_data pre h1 h2, hdrop]⟩
    | false =>
      refine ⟨s, ?_⟩
      rw [apply_prefix_neither pre h1 h2,
        List.append_assoc (S "ASSETS/" ++ pre) (S "/") s,
        show S "/" = [47] from by decide, List.singleton_append]

/-- The rewritten string is itself recognised as an asset path again. -/
theorem apply_prefix_is_asset (s pre : Str) :
    is_asset_path (apply_prefix_to_path s pre) = true := by
  obtain ⟨t, ht⟩ := apply_prefix_shape s pre
  rw [ht]
  have hp : S "assets/" <+: lowerStr (S "ASSETS/" ++ (pre ++ 47 :: t)) := by
    rw [lowerStr_append, show lowerStr (S "ASSETS/") = S "assets/" from by decide]
    exact List.prefix_append ..
  simp only [is_asset_path, Bool.or_eq_true, List.isPrefixOf_iff_prefix, List.append_assoc]
  exact Or.inl hp

/-- The rewritten string starts with `ASSETS/<prefix>/`. -/
theorem apply_prefix_startsWith (s pre : Str) :
    ((S "ASSETS/" ++ pre ++ S "/").isPrefixOf (apply_prefix_to_path s pre)) = true := by
  obtain ⟨t, ht⟩ := apply_prefix_shape s pre
  rw [ht, List.isPrefixOf_iff_prefix]
  refine ⟨t, ?_⟩
  rw [List.append_assoc (S "ASSETS/" ++ pre) (S "/") t,
    show S "/" = [47] from by decide, List.singleton_append]

/-- Applying the prefix twice strictly lengthens the string, so the
rewrite is never idempotent. -/
theorem apply_prefix_not_idem (s pre : Str) :
    apply_prefix_to_path (apply_prefix_to_path s pre) pre ≠ apply_prefix_to_path s pre := by
  obtain ⟨t, ht⟩ := apply_prefix_shape s pre
  have hpre : (S "assets/").isPrefixOf (lowerStr (apply_prefix_to_path s pre)) = true := by
    rw [List.isPrefixOf_iff_prefix, ht, List.append_assoc, lowerStr_append]
    rw [show lowerStr (S "ASSETS/") = S "assets/" from by decide]
    exact List.prefix_append ..
  intro heq
  have hlen := congrArg List.length heq
  rw [apply_prefix_assets pre hpre, ht] at hlen
  simp only [List.length_append, List.length_drop, List.length_cons] at hlen
  rw [show (S "ASSETS/").length = 7 from by decide] at hlen
  omega

theorem ciEq_true_iff {a b : Str} : ciEq a b = true ↔ lowerStr a = lowerStr b := by
  simp [ciEq]

theorem ciEq_false_iff {a b : Str} : ciEq a b = false ↔ lowerStr a ≠ lowerStr b := by
  simp [ciEq]

theorem ciEq_of_not {a b : Str} (h : ¬ciEq a b = true) : ciEq a b = false := by
  cases hc : ciEq a b
  · rfl
  · exact absurd hc h

theorem lookupBin_cons_true {e : Str × BinTree} {l : BinFiles} {q : Str}
    (h : ciEq e.1 q = true) : lookupBin (e :: l) q = some e.2 := by
  simp [lookupBin, List.find?, h]

theorem lookupBin_cons_false {e : Str × BinTree} {l : BinFiles} {q : Str}
    (h : ciEq e.1 q = false) : lookupBin (e :: l) q = lookupBin l q := by
  simp [lookupBin, List.find?, h]

theorem writeBin_cons_true {e : Str × BinTree} {l : BinFiles} {p : Str} {t : BinTree}
    (h : ciEq e.1 p = true) : writeBin (e :: l) p t = (p, t) :: l := by
  rw [writeBin]
  simp [h]

theorem writeBin_cons_false {e : Str × BinTree} {l : BinFiles} {p : Str} {t : BinTree}
    (h : ciEq e.1 p = false) : writeBin (e :: l) p t = e :: writeBin l p t := by
  rw [writeBin]
  simp [h]

theorem removeBin_cons_true {e : Str × BinTree} {l : BinFiles} {p : Str}
    (h : ciEq e.1 p = true) : removeBin (e :: l) p = removeBin l p := by
  simp [removeBin, h]

theorem removeBin_cons_false {e : Str × BinTree} {l : BinFiles} {p : Str}
    (h : ciEq e.1 p = false) : removeBin (e :: l) p = e :: removeBin l p := by
  simp [removeBin, h]

theorem lookupBin_writeBin_ne {fs : BinFiles} {p q : Str} {t : BinTree}
    (h : lowerStr q ≠ lowerStr p) :
    lookupBin (writeBin fs p t) q = lookupBin fs q := by
  induction fs with
  | nil =>
    rw [writeBin, lookupBin_cons_false (ciEq_false_iff.mpr (fun he => h he.symm))]
  | cons e rest ih =>
    by_cases hk : ciEq e.1 p = true
    · have he : lowerStr e.1 = lowerStr p := ciEq_true_iff.mp hk
      have h1 : ciEq e.1 q = false := ciEq_false_iff.mpr (by rw [he]; exact fun x => h x.symm)
      have h2 : ciEq p q = false := ciEq_false_iff.mpr (fun x => h x.symm)
      rw [writeBin_cons_true hk, lookupBin_cons_false h2, lookupBin_cons_false h1]
    · have hk' := ciEq_of_not hk
      by_cases hq : ciEq e.1 q = true
      · rw [writeBin_cons_false hk', lookupBin_cons_true hq, lookupBin_cons_true hq]
      · have hq' := ciEq_of_not hq
        rw [writeBin_cons_false hk', lookupBin_cons_false hq', lookupBin_cons_false hq', ih]

theorem lookupBin_writeBin_self {fs : BinFiles} {p q : Str} {t : BinTree}
    (h : lowerStr q = lowerStr p) :
    lookupBin (writeBin fs p t) q = some t := by
  induction fs with
  | nil => rw [writeBin, lookupBin_cons_true (ciEq_true_iff.mpr h.symm)]
  | cons e rest ih =>
    by_cases hk : ciEq e.1 p = true
    · rw [writeBin_cons_true hk, lookupBin_cons_true (ciEq_true_iff.mpr h.symm)]
    · have hk' := ciEq_of_not hk
      have hq' : ciEq e.1 q = false := by
        refine ciEq_false_iff.mpr ?_
        intro he
        exact (ciEq_false_iff.mp hk') (he.trans h)
      rw [writeBin_cons_false hk', lookupBin_cons_false hq', ih]

theorem lookupBin_removeBin_self {fs : BinFiles} {p q : Str}
    (h : lowerStr q = lowerStr p) :
    lookupBin (removeBin fs p) q = none := by
  induction fs with
  | nil => rfl
  | cons e rest ih =>
    by_cases hk : ciEq e.1 p = true
    · rw [removeBin_cons_true hk]
      exact ih
    · have hk' := ciEq_of_not hk
      have hq' : ciEq e.1 q = false := by
        refine ciEq_false_iff.mpr ?_
        intro he
        exact (ciEq_false_iff.mp hk') (he.trans h)
      rw [removeBin_cons_false hk', lookupBin_cons_false hq']
      exact ih

theorem lookupBin_removeBin_ne {fs : BinFiles} {p q : Str}
    (h : lowerStr q ≠ lowerStr p) :
    lookupBin (removeBin fs p) q = lookupBin fs q := by
  induction fs with
  | nil => rfl
  | cons e rest ih =>
    by_cases hk : ciEq e.1 p = true
    · have h1 : ciEq e.1 q = false := by
        refine ciEq_false_iff.mpr ?_
        intro he
        exact h (he.symm.trans (ciEq_true_iff.mp hk))
      rw [removeBin_cons_true hk, lookupBin_cons_false h1]
      exact ih
    · have hk' := ciEq_of_not hk
      by_cases hq : ciEq e.1 q = true
      · rw [removeBin_cons_false hk', lookupBin_cons_true hq, lookupBin_cons_true hq]
      · have hq' := ciEq_of_not hq
        rw [removeBin_cons_false hk', lookupBin_cons_false hq', lookupBin_cons_false hq', ih]

theorem lookupBin_removeBin_none {fs : BinFiles} {p q : Str}
    (h : lookupBin fs q = none) :
    lookupBin (removeBin fs p) q = none := by
  by_cases he : lowerStr q = lowerStr p
  · exact lookupBin_removeBin_self he
  · rw [lookupBin_removeBin_ne he]
    exact h

theorem lookup_foldl_removeBin_none {L : List Str} :
    ∀ {fs : BinFiles} {q : Str}, lookupBin fs q = none →
      lookupBin (L.foldl removeBin fs) q = none := by
  induction L with
  | nil => intro fs q h; simpa using h
  | cons x xs ih =>
    intro fs q h
    rw [List.foldl_cons]
    exact ih (lookupBin_removeBin_none h)

theorem lookup_foldl_removeBin_mem {L : List Str} :
    ∀ {fs : BinFiles} {q : Str}, q ∈ L →
      lookupBin (L.foldl removeBin fs) q = none := by
  induction L with
  | nil => intro fs q h; cases h
  | cons x xs ih =>
    intro fs q h
    rw [List.foldl_cons]
    rcases List.mem_cons.mp h with rfl | hm
    · exact lookup_foldl_removeBin_none (lookupBin_removeBin_self rfl)
    · exact ih hm

theorem lookup_foldl_removeBin_ne {L : List Str} :
    ∀ {fs : BinFiles} {q : Str}, (∀ p ∈ L, lowerStr q ≠ lowerStr p) →
      lookupBin (L.foldl removeBin fs) q = lookupBin fs q := by
  induction L with
  | nil => intro fs q _; rfl
  | cons x xs ih =>
    intro fs q h
    rw [List.foldl_cons, ih (fun p hp => h p (List.mem_cons_of_mem x hp)),
      lookupBin_removeBin_ne (h x (List.mem_cons_self x xs))]


/-- C3: after `concatenate_linked_bins` succeeds on a main tree with
LinkedData dependencies, the main tree's dependency list becomes exactly
`[concat_path, root_path?, animation_path?]` — the concat path first,
then the first ChampionRoot and first Animation dependency when present —
and every successfully concatenated source file is deleted from the
filesystem. -/
theorem c3_concat_collapses_deps :
    ∀ (fs : BinFiles) (mainPath project creator champion : Str)
      (mappings : List (Str × Str)) (mainB : BinTree),
      lookupBin fs mainPath = some mainB →
      (type3Paths mainB).isEmpty = false →
      lowerStr mainPath ≠ lowerStr (concatPathOf project creator champion) →
      (∀ p ∈ processedOf fs mainB mappings,
        lowerStr p ≠ lowerStr mainPath
        ∧ lowerStr p ≠ lowerStr (concatPathOf project creator champion)) →
      ∃ fs3 res,
        concatenate_linked_bins fs mainPath project creator champion mappings
          = Except.ok (fs3, res)
        ∧ res.concat_path = concatPathOf project creator champion
        ∧ res.source_paths = processedOf fs mainB mappings
        ∧ lookupBin fs3 mainPath
            = some (update_main_bin_links mainB res.concat_path)
        ∧ (update_main_bin_links mainB res.concat_path).dependencies
            = res.concat_path
              :: ((mainB.dependencies.find?
                    (fun p => classify_bin p == BinCategory.ChampionRoot)).toList
                ++ (mainB.dependencies.find?
                    (fun p => classify_bin p == BinCategory.Animation)).toList)
        ∧ ∀ p ∈ res.source_paths, lookupBin fs3 p = none := by
  intro fs mainPath project creator champion mappings mainB h1 h2 h3 h4
  have hcreate : create_concat_bin mainB project creator champion fs mappings
      = Except.ok
          (writeBin fs (concatPathOf project creator champion)
            { dependencies := [],
              objects := ((type3Paths mainB).foldl (concatSourceStep fs mappings)
                { objs := [], collisions := 0, sourceCount := 0, processed := [] }).objs },
           { concat_path := concatPathOf project creator champion,
             source_count := ((type3Paths mainB).foldl (concatSourceStep fs mappings)
                { objs := [], collisions := 0, sourceCount := 0, processed := [] }).sourceCount,
             entry_count := ((type3Paths mainB).foldl (concatSourceStep fs mappings)
                { objs := [], collisions := 0, sourceCount := 0, processed := [] }).objs.length,
             collision_count := ((type3Paths mainB).foldl (concatSourceStep fs mappings)
                { objs := [], collisions := 0, sourceCount := 0, processed := [] }).collisions,
             source_paths := processedOf fs mainB mappings }) := by
    unfold create_concat_bin processedOf
    simp only [h2, Bool.false_eq_true, if_false]
  have hmain1 : lookupBin
      (writeBin fs (concatPathOf project creator champion)
        { dependencies := [],
          objects := ((type3Paths mainB).foldl (concatSourceStep fs mappings)
            { objs := [], collisions := 0, sourceCount := 0, processed := [] }).objs })
      mainPath = some mainB := by
    rw [lookupBin_writeBin_ne h3]
    exact h1
  unfold concatenate_linked_bins
  rw [h1]
  dsimp only
  rw [hcreate]
  dsimp only
  rw [hmain1]
  dsimp only
  refine ⟨_, _, rfl, rfl, rfl, ?_, rfl, ?_⟩
  · rw [lookup_foldl_removeBin_ne (fun p hp => ((h4 p hp).1).symm)]
    exact lookupBin_writeBin_self rfl
  · intro p hp
    exact lookup_foldl_removeBin_mem hp



theorem assocGet_assocInsert {a b : Type} [DecidableEq a] (m : List (a × b))
    (k0 : a) (v0 : b) (k : a) :
    assocGet (assocInsert m k0 v0) k = if k = k0 then some v0 else assocGet m k := by
  induction m with
  | nil =>
    by_cases h : k = k0
    · simp [assocInsert, assocGet, List.find?, h]
    · have h' : ¬(k0 = k) := fun x => h x.symm
      simp [assocInsert, assocGet, List.find?, h, h']
  | cons e rest ih =>
    by_cases he : e.1 = k0
    · by_cases h : k = k0
      · simp [assocInsert, assocGet, List.find?, he, h, he.trans h.symm]
      · have h' : ¬(k0 = k) := fun x => h x.symm
        have he' : ¬(e.1 = k) := by rw [he]; exact h'
        simp [assocInsert, assocGet, List.find?, he, h, h', he']
    · by_cases hek : e.1 = k
      · have h : ¬(k = k0) := fun x => he (hek.trans x)
        simp [assocInsert, assocGet, List.find?, he, hek, h]
      · by_cases h : k = k0
        · simpa [assocInsert, assocGet, List.find?, he, hek, h] using ih
        · simpa [assocInsert, assocGet, List.find?, he, hek, h] using ih

theorem normalize_append (x y : Str) :
    normalize_path (x ++ y) = normalize_path x ++ normalize_path y := by
  simp [normalize_path, lowerStr, normSlash]

theorem normalize_join {a : Str} (b : Str) (ha : a ≠ []) :
    normalize_path (joinPath a b) = normalize_path a ++ S "/" ++ normalize_path b := by
  unfold joinPath
  rw [if_neg (by simpa [List.isEmpty_iff] using ha)]
  rw [normalize_append, normalize_append,
    show normalize_path (S "/") = S "/" from by decide]

theorem joinPath_ne_nil {a b : Str} (hb : b ≠ []) : joinPath a b ≠ [] := by
  unfold joinPath
  split
  · exact hb
  · intro h
    have := congrArg List.length h
    simp at this
    exact hb this.2.2


theorem extractChunkStep_long (sniff : Str → SniffKind) (ht : List (Nat × Str))
    (w : Str) (acc : ExtractOut) (c : WadChunk) (d : Str)
    (hd : c.data = some d)
    (hfil : ((S "assets/").isPrefixOf (lowerStr (Hashtable.resolve ht c.hash))
      || (S "data/").isPrefixOf (lowerStr (Hashtable.resolve ht c.hash))) = true)
    (hlen : (resolve_chunk_path sniff (Hashtable.resolve ht c.hash) d).length > 200) :
    extractChunkStep sniff ht w acc c
      = { extracted_count := acc.extracted_count + 1,
          path_mappings := assocInsert acc.path_mappings
            (normalize_path (resolve_chunk_path sniff (Hashtable.resolve ht c.hash) d))
            (normalize_path
              (joinPath (parentOf (resolve_chunk_path sniff (Hashtable.resolve ht c.hash) d))
                (hex16 c.hash ++ S "."
                  ++ ((extensionOf (resolve_chunk_path sniff (Hashtable.resolve ht c.hash) d)).getD
                    (S "bin"))))),
          files := acc.files
            ++ [joinPath w
                (joinPath (parentOf (resolve_chunk_path sniff (Hashtable.resolve ht c.hash) d))
                  (hex16 c.hash ++ S "."
                    ++ ((extensionOf (resolve_chunk_path sniff (Hashtable.resolve ht c.hash) d)).getD
                      (S "bin"))))] } := by
  simp only [extractChunkStep, hfil, Bool.not_true, Bool.false_eq_true, if_false, hd]
  rw [if_pos hlen]
  rfl

theorem extractChunkStep_isSome (sniff : Str → SniffKind) (ht : List (Nat × Str))
    (w : Str) (acc : ExtractOut) (c : WadChunk) (k : Str)
    (h : (assocGet acc.path_mappings k).isSome = true) :
    (assocGet (extractChunkStep sniff ht w acc c).path_mappings k).isSome = true := by
  unfold extractChunkStep
  repeat' split
  all_goals
    first
      | exact h
      | (rw [assocGet_assocInsert]
         split
         · rfl
         · exact h)

theorem extractFold_isSome (sniff : Str → SniffKind) (ht : List (Nat × Str)) (w : Str) :
    ∀ (l : List WadChunk) (acc : ExtractOut) (k : Str),
      (assocGet acc.path_mappings k).isSome = true →
      (assocGet ((l.foldl (extractChunkStep sniff ht w) acc).path_mappings) k).isSome = true := by
  intro l
  induction l with
  | nil => intro acc k h; exact h
  | cons x xs ih =>
    intro acc k h
    rw [List.foldl_cons]
    exact ih _ _ (extractChunkStep_isSome sniff ht w acc x k h)

theorem extractFold_mem_isSome (sniff : Str → SniffKind) (ht : List (Nat × Str)) (w : Str) :
    ∀ (l : List WadChunk) (acc : ExtractOut) (c : WadChunk), c ∈ l →
      ∀ (d : Str), c.data = some d →
      ((S "assets/").isPrefixOf (lowerStr (Hashtable.resolve ht c.hash))
        || (S "data/").isPrefixOf (lowerStr (Hashtable.resolve ht c.hash))) = true →
      (resolve_chunk_path sniff (Hashtable.resolve ht c.hash) d).length > 200 →
      (assocGet ((l.foldl (extractChunkStep sniff ht w) acc).path_mappings)
        (normalize_path (resolve_chunk_path sniff (Hashtable.resolve ht c.hash) d))).isSome
        = true := by
  intro l
  induction l with
  | nil => intro acc c hc; cases hc
  | cons x xs ih =>
    intro acc c hc d hd hfil hlen
    rw [List.foldl_cons]
    rcases List.mem_cons.mp hc with rfl | hm
    · apply extractFold_isSome
      rw [extractChunkStep_long sniff ht w acc c d hd hfil hlen]
      rw [assocGet_assocInsert]
      rw [if_pos rfl]
      rfl
    · exact ih _ c hm d hd hfil hlen

theorem extractChunkStep_inv (sniff : Str → SniffKind) (ht : List (Nat × Str))
    (w : Str) (acc : ExtractOut) (c : WadChunk) (hw : w ≠ [])
    (hInv : ∀ k v, assocGet acc.path_mappings k = some v →
      ∃ f, f ∈ acc.files ∧ normalize_path f = normalize_path w ++ S "/" ++ v) :
    ∀ k v, assocGet (extractChunkStep sniff ht w acc c).path_mappings k = some v →
      ∃ f, f ∈ (extractChunkStep sniff ht w acc c).files
        ∧ normalize_path f = normalize_path w ++ S "/" ++ v := by
  intro k v
  unfold extractChunkStep
  split
  · exact hInv k v
  · split
    · exact hInv k v
    · split
      · intro h
        rw [assocGet_assocInsert] at h
        split at h
        · have hv := Option.some.inj h
          subst hv
          refine ⟨_, List.mem_append_right _ (List.mem_singleton.mpr rfl), ?_⟩
          rw [normalize_join _ hw]
          rfl
        · obtain ⟨f, hf, he⟩ := hInv k v h
          exact ⟨f, List.mem_append_left _ hf, he⟩
      · intro h
        obtain ⟨f, hf, he⟩ := hInv k v h
        exact ⟨f, List.mem_append_left _ hf, he⟩


theorem extractFold_inv (sniff : Str → SniffKind) (ht : List (Nat × Str)) (w : Str)
    (hw : w ≠ []) :
    ∀ (l : List WadChunk) (acc : ExtractOut),
      (∀ k v, assocGet acc.path_mappings k = some v →
        ∃ f, f ∈ acc.files ∧ normalize_path f = normalize_path w ++ S "/" ++ v) →
      ∀ k v, assocGet ((l.foldl (extractChunkStep sniff ht w) acc).path_mappings) k = some v →
        ∃ f, f ∈ (l.foldl (extractChunkStep sniff ht w) acc).files
          ∧ normalize_path f = normalize_path w ++ S "/" ++ v := by
  intro l
  induction l with
  | nil => intro acc h; exact h
  | cons x xs ih =>
    intro acc h
    rw [List.foldl_cons]
    exact ih _ (extractChunkStep_inv sniff ht w acc x hw h)


theorem splitByte_nil (d : Nat) : splitByte d [] = [[]] := rfl

theorem splitByte_cons_eq {d b : Nat} {t : Str} {cur : Str} {rest : List Str}
    (h : splitByte d t = cur :: rest) :
    splitByte d (b :: t) = if b = d then [] :: cur :: rest else (b :: cur) :: rest := by
  have heq : splitByte d (b :: t)
      = match splitByte d t with
        | [] => [[b]]
        | cur :: rest => if b = d then [] :: cur :: rest else (b :: cur) :: rest := rfl
  rw [heq, h]

theorem splitByte_ne_nil (d : Nat) (s : Str) : splitByte d s ≠ [] := by
  induction s with
  | nil => simp [splitByte]
  | cons b t ih =>
    cases h : splitByte d t with
    | nil => exact absurd h ih
    | cons cur rest =>
      rw [splitByte_cons_eq h]
      by_cases hb : b = d <;> simp [hb]

theorem splitByte_map (d : Nat) (f : Nat → Nat) (hf1 : f d = d)
    (hf2 : ∀ b, f b = d → b = d) (s : Str) :
    splitByte d (s.map f) = (splitByte d s).map (List.map f) := by
  induction s with
  | nil => rfl
  | cons b t ih =>
    cases h : splitByte d t with
    | nil => exact absurd h (splitByte_ne_nil d t)
    | cons cur rest =>
      rw [List.map_cons, splitByte_cons_eq (by rw [ih, h]; rfl), splitByte_cons_eq h]
      by_cases hb : b = d
      · have hfb : f b = d := by rw [hb]; exact hf1
        simp [hb, hfb, hf1]
      · have hfb : ¬f b = d := fun hc => hb (hf2 b hc)
        simp [hb, hfb]

theorem splitByte_sepFree_append (d : Nat) (a t : Str) (ha : ∀ b ∈ a, b ≠ d) :
    splitByte d (a ++ d :: t) = a :: splitByte d t := by
  induction a with
  | nil =>
    cases h : splitByte d t with
    | nil => exact absurd h (splitByte_ne_nil d t)
    | cons cur rest =>
      rw [List.nil_append, splitByte_cons_eq h, if_pos rfl]

  | cons x xs ih =>
    have hx : x ≠ d := ha x (List.mem_cons_self x xs)
    have ha2 : ∀ b ∈ xs, b ≠ d := fun b hb => ha b (List.mem_cons_of_mem x hb)
    cases h : splitByte d t with
    | nil => exact absurd h (splitByte_ne_nil d t)
    | cons cur rest =>
      have hstep : splitByte d (xs ++ d :: t) = xs :: splitByte d t := ih ha2
      rw [List.cons_append, splitByte_cons_eq hstep, if_neg hx, h]

theorem joinByte_cons_cons (d : Nat) (x y : Str) (ys : List Str) :
    joinByte d (x :: y :: ys) = x ++ d :: joinByte d (y :: ys) := rfl

theorem joinByte_splitByte (d : Nat) (s : Str) : joinByte d (splitByte d s) = s := by
  induction s with
  | nil => rfl
  | cons b t ih =>
    cases h : splitByte d t with
    | nil => exact absurd h (splitByte_ne_nil d t)
    | cons cur rest =>
      rw [h] at ih
      rw [splitByte_cons_eq h]
      by_cases hb : b = d
      · subst hb
        rw [if_pos rfl, joinByte_cons_cons, List.nil_append, ih]
      · rw [if_neg hb]
        cases rest with
        | nil =>
          simp only [joinByte] at ih ⊢
          rw [ih]
        | cons y ys =>
          rw [joinByte_cons_cons] at ih
          rw [joinByte_cons_cons, List.cons_append, ih]

theorem lowerStr_normSlash (s : Str) : lowerStr (normSlash s) = normSlash (lowerStr s) := by
  simp only [lowerStr, normSlash, List.map_map]
  congr 1
  funext b
  simp only [Function.comp_apply]
  by_cases h92 : b = 92
  · norm_num [lowByte, h92]
  · by_cases hU : 65 ≤ b ∧ b ≤ 90
    · have h3292 : ¬(b + 32 = 92) := by omega
      simp [lowByte, h92, hU, h3292]
    · simp [lowByte, h92, hU]

theorem lowerStr_idem (s : Str) : lowerStr (lowerStr s) = lowerStr s := by
  simp only [lowerStr, List.map_map]
  congr 1
  funext b
  simp only [Function.comp_apply]
  by_cases hU : 65 ≤ b ∧ b ≤ 90
  · have hno : ¬(65 ≤ b + 32 ∧ b + 32 ≤ 90) := by omega
    simp [lowByte, hU, hno]
    omega
  · simp [lowByte, hU]

theorem normSlash_idem (s : Str) : normSlash (normSlash s) = normSlash s := by
  simp only [normSlash, List.map_map]
  congr 1
  funext b
  by_cases h : b = 92
  · simp [h]
  · simp [h]

theorem lowNorm_stable (p : Str) :
    lowerStr (normSlash (lowerStr (normSlash p))) = lowerStr (normSlash p) := by
  rw [lowerStr_normSlash, lowerStr_idem, ← lowerStr_normSlash, normSlash_idem]


theorem splitSlash_lowerStr (s : Str) :
    splitSlash (lowerStr s) = (splitSlash s).map lowerStr :=
  splitByte_map 47 lowByte (by decide)
    (fun b h => by unfold lowByte at h; split at h <;> omega) s

theorem getD_map_lowerStr (l : List Str) (i : Nat) :
    (l.map lowerStr).getD i [] = lowerStr (l.getD i []) := by
  rw [List.getD_eq_getElem?_getD, List.getD_eq_getElem?_getD, List.getElem?_map]
  cases l[i]? <;> simp [lowerStr]

theorem bool_eq_of_iff {a b : Bool} (h : a = true ↔ b = true) : a = b := by
  cases a <;> cases b <;> simp_all

theorem lit_dc : S "data/characters/" ++ (t : Str)
    = S "data" ++ 47 :: (S "characters" ++ 47 :: t) := by
  rw [show S "data/characters/" = S "data" ++ 47 :: (S "characters" ++ [47]) from by decide]
  simp [List.append_assoc]

theorem splitSlash_dc (t : Str) :
    splitSlash (S "data/characters/" ++ t)
      = S "data" :: S "characters" :: splitSlash t := by
  rw [lit_dc]
  rw [show splitSlash (S "data" ++ 47 :: (S "characters" ++ 47 :: t))
      = S "data" :: splitSlash (S "characters" ++ 47 :: t) from
    splitByte_sepFree_append 47 (S "data") _ (by decide)]
  rw [show splitSlash (S "characters" ++ 47 :: t)
      = S "characters" :: splitSlash t from
    splitByte_sepFree_append 47 (S "characters") t (by decide)]


theorem champCond_eq (p : Str) :
    (((S "data/characters/").isPrefixOf (lowerStr (normSlash p))
        && !containsSub (S "/animations/") (lowerStr (normSlash p)))
      && (((splitSlash (normSlash p)).length == 4)
        && (S ".bin").isSuffixOf (lowerStr ((splitSlash (normSlash p)).getD 3 []))
        && (lowerStr ((splitSlash (normSlash p)).getD 3 [])
            == lowerStr ((splitSlash (normSlash p)).getD 2 []) ++ S ".bin")))
    = ((match splitSlash (lowerStr (normSlash p)) with
        | [a, b, c, d] => a == S "data" && b == S "characters" && d == c ++ S ".bin"
        | _ => false)
      && !containsSub (S "/animations/") (lowerStr (normSlash p))) := by
  apply bool_eq_of_iff
  have hQ : splitSlash (lowerStr (normSlash p)) = (splitSlash (normSlash p)).map lowerStr :=
    splitSlash_lowerStr (normSlash p)
  constructor
  · intro h
    simp only [Bool.and_eq_true] at h
    obtain ⟨⟨hpre, hanim⟩, ⟨hlen, hsuf⟩, heq⟩ := h
    rw [Bool.and_eq_true]
    refine ⟨?_, hanim⟩
    rw [List.isPrefixOf_iff_prefix] at hpre
    obtain ⟨t, ht⟩ := hpre
    have hQ2 : splitSlash (lowerStr (normSlash p))
        = S "data" :: S "characters" :: splitSlash t := by
      rw [← ht, splitSlash_dc]
    have hlen4 : (splitSlash (normSlash p)).length = 4 := by simpa using hlen
    have hQlen : (splitSlash (lowerStr (normSlash p))).length = 4 := by
      rw [hQ, List.length_map]
      exact hlen4
    rw [hQ2] at hQlen
    have hst2 : (splitSlash t).length = 2 := by simpa using hQlen
    obtain ⟨c, dd, hst⟩ := List.length_eq_two.mp hst2
    rw [hQ2, hst]
    have h3 : (splitSlash (lowerStr (normSlash p))).getD 3 [] = dd := by
      rw [hQ2, hst]
      rfl
    have h2 : (splitSlash (lowerStr (normSlash p))).getD 2 [] = c := by
      rw [hQ2, hst]
      rfl
    have h3s : lowerStr ((splitSlash (normSlash p)).getD 3 []) = dd := by
      rw [← getD_map_lowerStr, ← hQ, h3]
    have h2s : lowerStr ((splitSlash (normSlash p)).getD 2 []) = c := by
      rw [← getD_map_lowerStr, ← hQ, h2]
    have heq2 : dd = c ++ S ".bin" := by
      rw [← h3s, ← h2s]
      exact beq_iff_eq.mp heq
    simp [heq2]
  · intro h
    rw [Bool.and_eq_true] at h
    obtain ⟨hmatch, hanim⟩ := h
    cases hQ0 : splitSlash (lowerStr (normSlash p)) with
    | nil => exact absurd hQ0 (splitByte_ne_nil 47 _)
    | cons a r1 =>
      rw [hQ0] at hmatch
      cases r1 with
      | nil => simp at hmatch
      | cons b r2 =>
        cases r2 with
        | nil => simp at hmatch
        | cons c r3 =>
          cases r3 with
          | nil => simp at hmatch
          | cons dd r4 =>
            cases r4 with
            | cons e r5 => simp at hmatch
            | nil =>
              have htriple : (a = S "data" ∧ b = S "characters") ∧ dd = c ++ S ".bin" := by
                simpa [Bool.and_eq_true, beq_iff_eq] using hmatch
              obtain ⟨⟨ha, hb⟩, hd⟩ := htriple
              subst ha
              subst hb
              subst hd
              have hj := joinByte_splitByte 47 (lowerStr (normSlash p))
              have hQ0b : splitByte 47 (lowerStr (normSlash p))
                  = [S "data", S "characters", c, c ++ S ".bin"] := hQ0
              rw [hQ0b] at hj
              have hL : lowerStr (normSlash p)
                  = S "data/characters/" ++ (c ++ 47 :: (c ++ S ".bin")) := by
                rw [← hj, joinByte_cons_cons, joinByte_cons_cons, joinByte_cons_cons,
                  show joinByte 47 [c ++ S ".bin"] = c ++ S ".bin" from rfl]
                exact lit_dc.symm
              have hPlen : (splitSlash (normSlash p)).length = 4 := by
                have := congrArg List.length (hQ0.symm.trans hQ)
                simpa using this.symm
              have h3 : (splitSlash (lowerStr (normSlash p))).getD 3 [] = c ++ S ".bin" := by
                rw [hQ0]
                rfl
              have h2 : (splitSlash (lowerStr (normSlash p))).getD 2 [] = c := by
                rw [hQ0]
                rfl
              have h3s : lowerStr ((splitSlash (normSlash p)).getD 3 [])
                  = c ++ S ".bin" := by
                rw [← getD_map_lowerStr, ← hQ, h3]
              have h2s : lowerStr ((splitSlash (normSlash p)).getD 2 []) = c := by
                rw [← getD_map_lowerStr, ← hQ, h2]
              simp only [Bool.and_eq_true]
              refine ⟨⟨?_, hanim⟩, ⟨?_, ?_⟩, ?_⟩
              · rw [List.isPrefixOf_iff_prefix, hL]
                exact List.prefix_append ..
              · simpa using hPlen
              · rw [h3s, List.isSuffixOf_iff_suffix]
                exact List.suffix_append c (S ".bin")
              · rw [beq_iff_eq, h3s, h2s]


theorem classify_eq_claimAmended (p : Str) : classify_bin p = claimClassifyAmended p := by
  show
    (if ((S "data/characters/").isPrefixOf (lowerStr (normSlash p))
          && !(containsSub (S "/animations/") (lowerStr (normSlash p))))
        && ((splitSlash (normSlash p)).length == 4
          && (S ".bin").isSuffixOf (lowerStr ((splitSlash (normSlash p)).getD 3 []))
          && (lowerStr ((splitSlash (normSlash p)).getD 3 [])
              == lowerStr ((splitSlash (normSlash p)).getD 2 []) ++ S ".bin")) then
      BinCategory.ChampionRoot
    else if (splitSlash (lowerStr (normSlash p))).getLastD [] == S "root.bin" then
      BinCategory.ChampionRoot
    else if (S "data/characters/").isPrefixOf (lowerStr (normSlash p))
        && containsSub (S "/animations/") (lowerStr (normSlash p)) then
      BinCategory.Animation
    else BinCategory.LinkedData)
    =
    (if ((match splitSlash (lowerStr (normSlash p)) with
          | [a, b, c, d] => a == S "data" && b == S "characters" && d == c ++ S ".bin"
          | _ => false)
        && !(containsSub (S "/animations/") (lowerStr (normSlash p))))
        || (splitSlash (lowerStr (normSlash p))).getLastD [] == S "root.bin" then
      BinCategory.ChampionRoot
    else if (S "data/characters/").isPrefixOf (lowerStr (normSlash p))
        && containsSub (S "/animations/") (lowerStr (normSlash p)) then
      BinCategory.Animation
    else BinCategory.LinkedData)
  rw [champCond_eq p]
  generalize ((match splitSlash (lowerStr (normSlash p)) with
      | [a, b, c, d] => a == S "data" && b == S "characters" && d == c ++ S ".bin"
      | _ => false)
    && !(containsSub (S "/animations/") (lowerStr (normSlash p)))) = cb
  generalize ((splitSlash (lowerStr (normSlash p))).getLastD [] == S "root.bin") = fb
  cases cb <;> cases fb <;> simp

theorem claimClassifyAmended_stable (p : Str) :
    claimClassifyAmended (lowerStr (normSlash p)) = claimClassifyAmended p := by
  unfold claimClassifyAmended
  rw [lowNorm_stable]

theorem classify_bin_ne_ignore (p : Str) : classify_bin p ≠ BinCategory.Ignore := by
  show
    (if ((S "data/characters/").isPrefixOf (lowerStr (normSlash p))
          && !(containsSub (S "/animations/") (lowerStr (normSlash p))))
        && ((splitSlash (normSlash p)).length == 4
          && (S ".bin").isSuffixOf (lowerStr ((splitSlash (normSlash p)).getD 3 []))
          && (lowerStr ((splitSlash (normSlash p)).getD 3 [])
              == lowerStr ((splitSlash (normSlash p)).getD 2 []) ++ S ".bin")) then
      BinCategory.ChampionRoot
    else if (splitSlash (lowerStr (normSlash p))).getLastD [] == S "root.bin" then
      BinCategory.ChampionRoot
    else if (S "data/characters/").isPrefixOf (lowerStr (normSlash p))
        && containsSub (S "/animations/") (lowerStr (normSlash p)) then
      BinCategory.Animation
    else BinCategory.LinkedData) ≠ BinCategory.Ignore
  repeat' split
  all_goals decide

/-! ## Claim theorems -/

/-- C1, counterexample: Refather is not idempotent.  On the scenario-C
project (creator `Sir Dexal`, project `My Mod`, champion `kayn`, one
texture reference) the second run with the same config modifies a path
again, relocates the file again, and changes the tree content. -/
theorem c1_refather_not_idempotent_cex :
    (repathResultOf kaynRun2).paths_modified = 1
    ∧ (repathStateOf kaynRun2).assets ≠ (repathStateOf kaynRun1).assets
    ∧ firstStringOf (lookupBin (repathStateOf kaynRun2).bins kaynSkinBinPath)
        ≠ firstStringOf (lookupBin (repathStateOf kaynRun1).bins kaynSkinBinPath) := by
  refine ⟨by decide, by decide, by decide⟩

/-- C1, amended: Refather is not idempotent.  Every rewritten string is
recognised as an asset path again, rewriting it once more strictly
changes it, and on the concrete project the second run produces the
double-prefixed `ASSETS/<prefix>/<prefix>/…` string. -/
theorem c1_refather_second_run_reprefixes :
    (∀ s pre, is_asset_path (apply_prefix_to_path s pre) = true)
    ∧ (∀ s pre,
        apply_prefix_to_path (apply_prefix_to_path s pre) pre ≠ apply_prefix_to_path s pre)
    ∧ firstStringOf (lookupBin (repathStateOf kaynRun2).bins kaynSkinBinPath)
        = S "ASSETS/Sir-Dexal/My-Mod/Sir-Dexal/My-Mod/characters/kayn/skins/skin0/kayn.tex" :=
  ⟨apply_prefix_is_asset, apply_prefix_not_idem, by decide⟩

/-- C2, counterexample: when no main skin BIN is found, `repath_project`
does not fail; it proceeds (the non-matching BIN is processed) and
returns `Ok`. -/
theorem c2_no_main_proceeds_cex :
    find_main_skin_bin fooState.bins (S "kayn") 0 = none
    ∧ (repath_project fooState sirDexalCfg []).isOk = true
    ∧ (repathResultOf (repath_project fooState sirDexalCfg [])).bins_processed = 1 := by
  refine ⟨by decide, by decide, by decide⟩

/-- C2, amended: when no main skin tree is located, `repath_project`
falls back to the recursive walk — the BIN working set becomes every
`.bin` file of the tree — and the operation succeeds instead of
erroring. -/
theorem c2_no_main_falls_back :
    ∀ (fs : ProjectFS) (cfg : RepathConfig) (m : List (Str × Str)),
      fs.contentExists = true →
      (if cfg.champion.isEmpty then none
       else find_main_skin_bin fs.bins cfg.champion cfg.target_skin_id) = none →
      repathBinFiles fs cfg m = fs.bins.map (·.1)
      ∧ (repath_project fs cfg m).isOk = true := by
  intro fs cfg m h1 h2
  constructor
  · unfold repathBinFiles
    rw [h2]
  · unfold repath_project
    rw [h1]
    rfl

/-- C2, amended, witness at the concrete no-main project. -/
theorem c2_no_main_falls_back_witness :
    repathBinFiles fooState sirDexalCfg [] = fooState.bins.map (·.1)
    ∧ (repath_project fooState sirDexalCfg []).isOk = true :=
  c2_no_main_falls_back fooState sirDexalCfg [] (by decide) (by decide)

/-- C4: every rewritten string starts with `ASSETS/<creator>/<project>/`
with spaces replaced by dashes, and on the scenario-C fixture the
reference `assets/characters/kayn/skins/skin0/kayn.tex` becomes
`ASSETS/Sir-Dexal/My-Mod/characters/kayn/skins/skin0/kayn.tex`, both in
the tree and as the relocated file. -/
theorem c4_refather_prefixes_correctly :
    (∀ (s : Str) (cfg : RepathConfig),
      ((S "ASSETS/" ++ dashSpaces cfg.creator_name ++ S "/"
          ++ dashSpaces cfg.project_name ++ S "/").isPrefixOf
        (apply_prefix_to_path s cfg.prefixOf)) = true)
    ∧ apply_prefix_to_path kaynTexPath sirDexalCfg.prefixOf
        = S "ASSETS/Sir-Dexal/My-Mod/characters/kayn/skins/skin0/kayn.tex"
    ∧ firstStringOf (lookupBin (repathStateOf kaynRun1).bins kaynSkinBinPath)
        = S "ASSETS/Sir-Dexal/My-Mod/characters/kayn/skins/skin0/kayn.tex"
    ∧ (repathStateOf kaynRun1).assets
        = [S "ASSETS/Sir-Dexal/My-Mod/characters/kayn/skins/skin0/kayn.tex"] := by
  refine ⟨?_, by decide, by decide, by decide⟩
  intro s cfg
  have h := apply_prefix_startsWith s cfg.prefixOf
  have hshape : S "ASSETS/" ++ cfg.prefixOf ++ S "/"
      = S "ASSETS/" ++ dashSpaces cfg.creator_name ++ S "/"
          ++ dashSpaces cfg.project_name ++ S "/" := by
    rw [RepathConfig.prefixOf]
    simp [List.append_assoc]
  rw [← hshape]
  exact h

/-- C6: `read_bin` rejects before parsing — over 50 MiB is too large,
then under 4 bytes is too small, then a magic other than `PROP`/`PTCH`
is invalid; only inputs passing all three checks reach the underlying
parser (whose outcome is then returned unchanged through
`outcomeResult`). -/
theorem c6_read_bin_guards :
    ∀ (P : Str → ParseOutcome) (data : Str),
      (data.length > MAX_BIN_SIZE →
        read_bin P data = Except.error (BinReadError.tooLarge data.length))
      ∧ (data.length < 4 →
        read_bin P data = Except.error (BinReadError.tooSmall data.length))
      ∧ (data.length ≤ MAX_BIN_SIZE → 4 ≤ data.length →
        data.take 4 ≠ S "PROP" → data.take 4 ≠ S "PTCH" →
        read_bin P data = Except.error (BinReadError.invalidMagic (data.take 4)))
      ∧ (data.length ≤ MAX_BIN_SIZE → 4 ≤ data.length →
        (data.take 4 = S "PROP" ∨ data.take 4 = S "PTCH") →
        read_bin P data = outcomeResult (P data)) := by
  intro P data
  refine ⟨?_, ?_, ?_, ?_⟩
  · intro h
    unfold read_bin
    rw [if_pos h]
  · intro h
    unfold read_bin
    rw [if_neg (by unfold MAX_BIN_SIZE; omega), if_neg (by omega)]
  · intro h1 h2 h3 h4
    unfold read_bin
    rw [if_neg (by omega), if_pos h2, if_pos ⟨h3, h4⟩]
  · intro h1 h2 h3
    unfold read_bin
    rw [if_neg (by omega), if_pos h2,
      if_neg (by rcases h3 with h | h <;> simp [h])]
    cases P data <;> rfl

/-- C6, witness: a 50 MiB + 1 input is too large, a 2-byte input too
small, a wrong 4-byte magic invalid, and a `PTCH` input reaches the
parser. -/
theorem c6_read_bin_guards_witness :
    read_bin trivParser bigInput = Except.error (BinReadError.tooLarge bigInput.length)
    ∧ read_bin trivParser (S "PR") = Except.error (BinReadError.tooSmall 2)
    ∧ read_bin trivParser (S "XXXX") = Except.error (BinReadError.invalidMagic (S "XXXX"))
    ∧ read_bin trivParser (S "PTCH") = outcomeResult (trivParser (S "PTCH")) := by
  refine ⟨(c6_read_bin_guards trivParser bigInput).1 ?_,
    (c6_read_bin_guards trivParser (S "PR")).2.1 (by decide),
    (c6_read_bin_guards trivParser (S "XXXX")).2.2.1 (by decide) (by decide)
      (by decide) (by decide),
    (c6_read_bin_guards trivParser (S "PTCH")).2.2.2 (by decide) (by decide)
      (Or.inr (by decide))⟩
  rw [bigInput, List.length_replicate]
  omega

/-- C7: BIN parsing is panic-safe at the `read_bin` boundary — whatever
the underlying parser does, the result is an ordinary `Except`; in
particular a panic outcome is converted to a `parserCrash` error carrying
the downcast reason (the `&str`/`String` payload, else
`"unknown panic"`), never propagated. -/
theorem c7_read_bin_panic_safe :
    (∀ (P : Str → ParseOutcome) (data : Str) (payload : Option Str),
      data.length ≤ MAX_BIN_SIZE → 4 ≤ data.length →
      (data.take 4 = S "PROP" ∨ data.take 4 = S "PTCH") →
      P data = ParseOutcome.panics payload →
      read_bin P data = Except.error (BinReadError.parserCrash (panicReason payload)))
    ∧ (∀ s, panicReason (some s) = s)
    ∧ panicReason none = S "unknown panic" := by
  refine ⟨?_, fun _ => rfl, rfl⟩
  intro P data payload h1 h2 h3 hp
  have h4 := (c6_read_bin_guards P data).2.2.2 h1 h2 h3
  rw [h4, hp]
  rfl

/-- C7, witness: a parser that panics with payload `"boom"` surfaces as
a `parserCrash` error carrying `"boom"`. -/
theorem c7_read_bin_panic_safe_witness :
    read_bin (fun _ => ParseOutcome.panics (some (S "boom"))) (S "PROP")
      = Except.error (BinReadError.parserCrash (S "boom")) :=
  c7_read_bin_panic_safe.1 (fun _ => ParseOutcome.panics (some (S "boom")))
    (S "PROP") (some (S "boom")) (by decide) (by decide) (Or.inl (by decide)) rfl

/-- C9: `resolve` returns the stored name for a present digest and the
zero-padded lowercase 16-hex rendering otherwise; the store loaded from
the single line `1a2b3c4d test.bin` resolves `0x1a2b3c4d` to `test.bin`
and `0xdeadbeef` to `00000000deadbeef`. -/
theorem c9_hashtable_resolve_correct :
    (∀ (m : HashMappings) (d : Nat) (n : Str),
      assocGet m d = some n → Hashtable.resolve m d = n)
    ∧ (∀ (m : HashMappings) (d : Nat),
      assocGet m d = none → Hashtable.resolve m d = hex16 d)
    ∧ (∃ store, parse_hash_content (S "1a2b3c4d test.bin") = Except.ok store
        ∧ Hashtable.resolve store 0x1a2b3c4d = S "test.bin"
        ∧ Hashtable.resolve store 0xdeadbeef = S "00000000deadbeef") := by
  refine ⟨?_, ?_, ⟨[(0x1a2b3c4d, S "test.bin")], by rfl, by decide, by decide⟩⟩
  · intro m d n h
    unfold Hashtable.resolve
    rw [h]
  · intro m d h
    unfold Hashtable.resolve
    rw [h]

/-- C9, witness: concrete present and absent digests. -/
theorem c9_hashtable_resolve_correct_witness :
    Hashtable.resolve [(1, S "x")] 1 = S "x"
    ∧ Hashtable.resolve [] 5 = hex16 5 :=
  ⟨c9_hashtable_resolve_correct.1 [(1, S "x")] 1 (S "x") (by decide),
   c9_hashtable_resolve_correct.2.1 [] 5 (by decide)⟩

/-- C10: `extract_skin_assets` ignores its skin-id argument entirely —
for any two skin ids with all other inputs equal, the files written, the
count and the path mappings are identical. -/
theorem c10_extract_skin_assets_skin_id_irrelevant :
    ∀ (sniff : Str → SniffKind) (chunks : List WadChunk)
      (output_dir champion : Str) (ht : List (Nat × Str)) (n m : Nat),
      extract_skin_assets sniff chunks output_dir champion n ht
        = extract_skin_assets sniff chunks output_dir champion m ht :=
  fun _ _ _ _ _ _ _ => rfl

/-- C3, witness: on the fixture `[R, A, L1, L2]` the dependency list
becomes `[C, R, A]` and `L1`, `L2` are deleted. -/
theorem c3_concat_collapses_deps_witness :
    ∃ fs3 res,
      concatenate_linked_bins concatFS concatMainPath (S "My Mod") (S "Sir Dexal")
          (S "kayn") [] = Except.ok (fs3, res)
      ∧ res.concat_path = concatPathOf (S "My Mod") (S "Sir Dexal") (S "kayn")
      ∧ res.source_paths = processedOf concatFS concatMainTree []
      ∧ lookupBin fs3 concatMainPath
          = some (update_main_bin_links concatMainTree res.concat_path)
      ∧ (update_main_bin_links concatMainTree res.concat_path).dependencies
          = res.concat_path
            :: ((concatMainTree.dependencies.find?
                  (fun p => classify_bin p == BinCategory.ChampionRoot)).toList
              ++ (concatMainTree.dependencies.find?
                  (fun p => classify_bin p == BinCategory.Animation)).toList)
      ∧ ∀ p ∈ res.source_paths, lookupBin fs3 p = none :=
  c3_concat_collapses_deps concatFS concatMainPath (S "My Mod") (S "Sir Dexal")
    (S "kayn") [] concatMainTree (by rfl) (by decide) (by decide) (by decide)

set_option maxRecDepth 40000 in
/-- C5, counterexample: a chunk whose resolved relative path is 150
characters long while the path joined with the wad root is 267 characters
long is written at its plain resolved path, with no hash fallback and no
`path_mappings` entry — the 200-character check is applied to the relative
path only, not to the path joined with the wad root. -/
theorem c5_longname_threshold_cex :
    200 < (joinPath (joinPath longOutDir (lowerStr (S "kayn") ++ S ".wad.client"))
      (resolve_chunk_path sniffAny (Hashtable.resolve longHt 1) [])).length
    ∧ (extract_skin_assets sniffAny [longChunk] longOutDir (S "kayn") 0 longHt).path_mappings = []
    ∧ (extract_skin_assets sniffAny [longChunk] longOutDir (S "kayn") 0 longHt).files
        = [joinPath (joinPath longOutDir (lowerStr (S "kayn") ++ S ".wad.client")) longTexName] := by
  refine ⟨by decide, by decide, by decide⟩

/-- C5, amended: the long-name fallback triggers on the resolved relative
path alone exceeding 200 characters.  Such a chunk is written to
`<parent>/<16-hex>.<inferred-ext>` under the wad folder, the normalized
original path is a key of `path_mappings`, and every `path_mappings`
value names a file (relative to the wad folder) that exists after
extraction. -/
theorem c5_longname_fallback :
    ∀ (sniff : Str → SniffKind) (ht : List (Nat × Str)) (output_dir champion : Str)
      (sid : Nat) (chunks : List WadChunk),
      (∀ (acc : ExtractOut) (c : WadChunk) (d : Str),
        c.data = some d →
        ((S "assets/").isPrefixOf (lowerStr (Hashtable.resolve ht c.hash))
          || (S "data/").isPrefixOf (lowerStr (Hashtable.resolve ht c.hash))) = true →
        (resolve_chunk_path sniff (Hashtable.resolve ht c.hash) d).length > 200 →
        extractChunkStep sniff ht (joinPath output_dir (lowerStr champion ++ S ".wad.client")) acc c
          = { extracted_count := acc.extracted_count + 1,
              path_mappings := assocInsert acc.path_mappings
                (normalize_path (resolve_chunk_path sniff (Hashtable.resolve ht c.hash) d))
                (normalize_path
                  (joinPath (parentOf (resolve_chunk_path sniff (Hashtable.resolve ht c.hash) d))
                    (hex16 c.hash ++ S "."
                      ++ ((extensionOf (resolve_chunk_path sniff (Hashtable.resolve ht c.hash) d)).getD
                        (S "bin"))))),
              files := acc.files
                ++ [joinPath (joinPath output_dir (lowerStr champion ++ S ".wad.client"))
                    (joinPath (parentOf (resolve_chunk_path sniff (Hashtable.resolve ht c.hash) d))
                      (hex16 c.hash ++ S "."
                        ++ ((extensionOf (resolve_chunk_path sniff (Hashtable.resolve ht c.hash) d)).getD
                          (S "bin"))))] })
      ∧ (∀ c ∈ chunks, ∀ (d : Str), c.data = some d →
          ((S "assets/").isPrefixOf (lowerStr (Hashtable.resolve ht c.hash))
            || (S "data/").isPrefixOf (lowerStr (Hashtable.resolve ht c.hash))) = true →
          (resolve_chunk_path sniff (Hashtable.resolve ht c.hash) d).length > 200 →
          (assocGet (extract_skin_assets sniff chunks output_dir champion sid ht).path_mappings
            (normalize_path (resolve_chunk_path sniff (Hashtable.resolve ht c.hash) d))).isSome
            = true)
      ∧ (∀ k v,
          assocGet (extract_skin_assets sniff chunks output_dir champion sid ht).path_mappings k
            = some v →
          ∃ f, f ∈ (extract_skin_assets sniff chunks output_dir champion sid ht).files
            ∧ normalize_path f
              = normalize_path (joinPath output_dir (lowerStr champion ++ S ".wad.client"))
                ++ S "/" ++ v) := by
  intro sniff ht output_dir champion sid chunks
  have hw : joinPath output_dir (lowerStr champion ++ S ".wad.client") ≠ [] :=
    joinPath_ne_nil (by
      intro hc
      have := congrArg List.length hc
      simp [S] at this)
  refine ⟨?_, ?_, ?_⟩
  · intro acc c d hd hfil hlen
    exact extractChunkStep_long sniff ht _ acc c d hd hfil hlen
  · intro c hc d hd hfil hlen
    exact extractFold_mem_isSome sniff ht _ chunks _ c hc d hd hfil hlen
  · intro k v
    apply extractFold_inv sniff ht _ hw chunks
    intro k v h
    simp [assocGet, List.find?] at h

set_option maxRecDepth 40000 in
/-- C5, amended, witness: a chunk resolving to a 250-character name is
written through the hash fallback; its normalized name is a
`path_mappings` key, and the recorded actual path names an extracted
file. -/
theorem c5_longname_fallback_witness :
    (assocGet (extract_skin_assets sniffAny [{ hash := 2, data := some [] }] longOutDir
        (S "kayn") 0 [(2, veryLongTexName)]).path_mappings
      (normalize_path (resolve_chunk_path sniffAny
        (Hashtable.resolve [(2, veryLongTexName)] 2) []))).isSome = true
    ∧ ∃ f, f ∈ (extract_skin_assets sniffAny [{ hash := 2, data := some [] }] longOutDir
          (S "kayn") 0 [(2, veryLongTexName)]).files
        ∧ normalize_path f
          = normalize_path (joinPath longOutDir (lowerStr (S "kayn") ++ S ".wad.client"))
            ++ S "/" ++ normalize_path (joinPath (parentOf veryLongTexName)
              (hex16 2 ++ S "." ++ S "tex")) :=
  ⟨(c5_longname_fallback sniffAny [(2, veryLongTexName)] longOutDir (S "kayn") 0
      [{ hash := 2, data := some [] }]).2.1 _ (List.mem_singleton.mpr rfl) [] rfl
      (by decide) (by decide),
   (c5_longname_fallback sniffAny [(2, veryLongTexName)] longOutDir (S "kayn") 0
      [{ hash := 2, data := some [] }]).2.2
      (normalize_path (resolve_chunk_path sniffAny
        (Hashtable.resolve [(2, veryLongTexName)] 2) []))
      (normalize_path (joinPath (parentOf veryLongTexName)
        (hex16 2 ++ S "." ++ S "tex"))) (by decide)⟩


/-- C8, counterexample: at `data/characters/animations/animations.bin`
(a champion literally named `animations`) the code classifies Animation,
while the claim's Root clause (`data/characters/<champ>/<champ>.bin`,
listed first) yields Root. -/
theorem c8_classifier_cex :
    classify_bin (S "data/characters/animations/animations.bin") = BinCategory.Animation
    ∧ claimClassify (S "data/characters/animations/animations.bin")
        = BinCategory.ChampionRoot :=
  ⟨by decide, by decide⟩

/-- C8, amended: `classify_bin` agrees everywhere with the claim's
first-match rules once the champion-root pattern excludes paths
containing `/animations/`; it is total, depends only on the lowercased
backslash-normalized path, and never produces Ignore. -/
theorem c8_classifier_amended :
    (∀ p, classify_bin p = claimClassifyAmended p)
    ∧ (∀ p, classify_bin p = classify_bin (lowerStr (normSlash p)))
    ∧ (∀ p, classify_bin p ≠ BinCategory.Ignore) := by
  refine ⟨classify_eq_claimAmended, ?_, classify_bin_ne_ignore⟩
  intro p
  rw [classify_eq_claimAmended p, classify_eq_claimAmended (lowerStr (normSlash p)),
    claimClassifyAmended_stable]

end Flint
